import Mathlib

/-!
Verification of the corner-rounding engine of `rounded_path.py`
(Klipper_RoundedPath module).

The Python source is shallowly embedded over `ℝ`: the vector math helpers
become pure functions on a `Vec3` structure, `ControlPoint` becomes a
record, and the stateful engine (`RoundedPath`) becomes explicit state
passing on an `EngineState` record whose `emitted` field records the linear
moves handed to the downstream `G0` primitive, in order.
-/

namespace RoundedPathSpec

/-- `EPSILON = 0.001` from rounded_path.py. -/
noncomputable def EPSILON : ℝ := 0.001

/-- `EPSILON_ANGLE = 0.001` from rounded_path.py. -/
noncomputable def EPSILON_ANGLE : ℝ := 0.001

/-- A 3D vector, the `[x, y, z]` lists of the source. -/
@[ext] structure Vec3 where
  x : ℝ
  y : ℝ
  z : ℝ

/-- `ControlPoint`: one buffered waypoint with its derived geometry fields. -/
structure ControlPoint where
  vec : Vec3
  f : ℝ
  maxd : ℝ
  angle : ℝ
  len : ℝ
  lin_d : ℝ
  lin_d_to_r : ℝ

/-- `ControlPoint.__init__(x, y, z, d, f)`: derived fields start at `0.0`. -/
def mkControlPoint (x y z d f : ℝ) : ControlPoint :=
  ⟨⟨x, y, z⟩, f, d, 0, 0, 0, 0⟩

/-- `math.hypot` on three components: the Euclidean norm. -/
noncomputable def hypot3 (x y z : ℝ) : ℝ := Real.sqrt (x ^ 2 + y ^ 2 + z ^ 2)

/-- `_vecto(f, t)`: the vector from `f`'s position to `t`'s position. -/
def vecto (f t : ControlPoint) : Vec3 :=
  ⟨t.vec.x - f.vec.x, t.vec.y - f.vec.y, t.vec.z - f.vec.z⟩

/-- `_vadd`. -/
def vadd (f t : Vec3) : Vec3 := ⟨f.x + t.x, f.y + t.y, f.z + t.z⟩

/-- `_vmul`. -/
def vmul (f : Vec3) (n : ℝ) : Vec3 := ⟨f.x * n, f.y * n, f.z * n⟩

/-- `_cross`. -/
def cross (vp vn : Vec3) : Vec3 :=
  ⟨vp.y * vn.z - vp.z * vn.y, vp.z * vn.x - vp.x * vn.z, vp.x * vn.y - vp.y * vn.x⟩

/-- `_vdist`. -/
noncomputable def vdist (v0 v1 : Vec3) : ℝ :=
  hypot3 (v0.x - v1.x) (v0.y - v1.y) (v0.z - v1.z)

/-- `math.hypot(*vec)`. -/
noncomputable def normVec (v : Vec3) : ℝ := hypot3 v.x v.y v.z

/-- `_vnorm`: scale by `1.0 / hypot(*vec)`. -/
noncomputable def vnorm (v : Vec3) : Vec3 := vmul v (1 / normVec v)

/-- `math.atan2(y, x)`, embedded through the complex argument. -/
noncomputable def atan2 (y x : ℝ) : ℝ := Complex.arg ⟨x, y⟩

/-- `_vangle`: the undirected angle `atan2(|v1 × v2|, v1 · v2)`. -/
noncomputable def vangle (vec1 vec2 : Vec3) : ℝ :=
  atan2 (hypot3 (vec1.y * vec2.z - vec1.z * vec2.y) (vec1.z * vec2.x - vec1.x * vec2.z)
      (vec1.x * vec2.y - vec1.y * vec2.x))
    (vec1.x * vec2.x + vec1.y * vec2.y + vec1.z * vec2.z)

/-- `_vrot(vec, angle, axis)`: rotation about a normalized axis. -/
noncomputable def vrot (vec : Vec3) (angle : ℝ) (axis : Vec3) : Vec3 :=
  let s := Real.sin angle
  let c := Real.cos angle
  let t := 1 - c
  ⟨vec.x * (t * axis.x ^ 2 + c) + vec.y * (t * axis.x * axis.y - s * axis.z) +
      vec.z * (t * axis.x * axis.z + s * axis.y),
    vec.x * (t * axis.x * axis.y + s * axis.z) + vec.y * (t * axis.y ^ 2 + c) +
      vec.z * (t * axis.y * axis.z - s * axis.x),
    vec.x * (t * axis.x * axis.z - s * axis.y) + vec.y * (t * axis.y * axis.z + s * axis.x) +
      vec.z * (t * axis.z ^ 2 + c)⟩

/-- The 3×3 matrix returned (as a flat list of 9 floats) by `_vrot_transform`. -/
structure Mat3 where
  m0 : ℝ
  m1 : ℝ
  m2 : ℝ
  m3 : ℝ
  m4 : ℝ
  m5 : ℝ
  m6 : ℝ
  m7 : ℝ
  m8 : ℝ

/-- `_vrot_transform(angle, axis)`: the precomputed rotation matrix. -/
noncomputable def vrot_transform (angle : ℝ) (axis : Vec3) : Mat3 :=
  let s := Real.sin angle
  let c := Real.cos angle
  let t := 1 - c
  ⟨t * axis.x ^ 2 + c, t * axis.x * axis.y - s * axis.z, t * axis.x * axis.z + s * axis.y,
    t * axis.x * axis.y + s * axis.z, t * axis.y ^ 2 + c, t * axis.y * axis.z - s * axis.x,
    t * axis.x * axis.z - s * axis.y, t * axis.y * axis.z + s * axis.x, t * axis.z ^ 2 + c⟩

/-- `_vtransform(vec, transform)`: apply a precomputed matrix. -/
def vtransform (vec : Vec3) (t : Mat3) : Vec3 :=
  ⟨vec.x * t.m0 + vec.y * t.m1 + vec.z * t.m2,
    vec.x * t.m3 + vec.y * t.m4 + vec.z * t.m5,
    vec.x * t.m6 + vec.y * t.m7 + vec.z * t.m8⟩

/-- `RoundedPath._calculate_corner(c, v1, v2)`: stores `len` and `angle`,
then (away from the epsilon angle guards) the blend distance and the
blend-to-radius ratio. -/
noncomputable def calculate_corner (c v1 v2 : ControlPoint) : ControlPoint :=
  let vec1 := vecto c v1
  let vec2 := vecto c v2
  let c1 : ControlPoint := { c with len := normVec vec1, angle := vangle vec1 vec2 }
  if |c1.angle| < EPSILON_ANGLE ∨ Real.pi - |c1.angle| < EPSILON_ANGLE then c1
  else
    let sina2 := Real.sin (c1.angle / 2)
    let tana2 := Real.tan (c1.angle / 2)
    let radius := c1.maxd * sina2 / (1 - sina2)
    { c1 with lin_d_to_r := tana2, lin_d := radius / tana2 }

/-- `RoundedPath._calculate_zero_corner(c, vp)`. -/
noncomputable def calculate_zero_corner (c vp : ControlPoint) : ControlPoint :=
  { c with len := normVec (vecto c vp), angle := 0 }

/-- One emission to the downstream move primitive: `move v f?` is a `G0` to
`v` built by `_g0p` (with an `F` parameter exactly when the point's feed is
positive); `raw` is the direct `self.real_G0(gcmd)` forwarding of the
incoming command done on the early-exit path of `cmd_ROUNDED_G0`. -/
inductive Emit where
  | move (v : Vec3) (f : Option ℝ)
  | raw

/-- The mutable state of a `RoundedPath` instance: the configured
`resolution` (`mm_per_arc_segment`), the control point `buffer`, the last
`_g0p` target `lastg0`, and the ordered log `emitted` of moves handed to
the downstream primitive. -/
structure EngineState where
  resolution : ℝ
  buffer : List ControlPoint
  lastg0 : Vec3
  emitted : List Emit

/-- `RoundedPath._g0p(p, vec)`: emit a move to `vec`, with `F = p.f` when
`p.f > 0`, and record `lastg0`. -/
noncomputable def g0p (st : EngineState) (p : ControlPoint) (v : Vec3) : EngineState :=
  { st with
    emitted := st.emitted ++ [Emit.move v (if 0 < p.f then some p.f else none)]
    lastg0 := v }

/-- `RoundedPath._g0(p)`. -/
noncomputable def g0 (st : EngineState) (p : ControlPoint) : EngineState := g0p st p p.vec

/-- `radius = c.lin_d * c.lin_d_to_r` in `_arc`. -/
def arcRadius (c : ControlPoint) : ℝ := c.lin_d * c.lin_d_to_r

/-- `vp = _vnorm(_vecto(c, p))` in `_arc`. -/
noncomputable def arcVp (c p : ControlPoint) : Vec3 := vnorm (vecto c p)

/-- `rotaxis = _vnorm(_cross(vp, vn))` in `_arc`. -/
noncomputable def arcRotAxis (c p n : ControlPoint) : Vec3 :=
  vnorm (cross (arcVp c p) (arcVp c n))

/-- `start = _vadd(c.vec, _vmul(vp, c.lin_d))` in `_arc`. -/
noncomputable def arcStart (c p : ControlPoint) : Vec3 :=
  vadd c.vec (vmul (arcVp c p) c.lin_d)

/-- `spoke = _vmul(_vrot(vp, pi/2, rotaxis), -radius)` in `_arc`. -/
noncomputable def arcSpoke (c p n : ControlPoint) : Vec3 :=
  vmul (vrot (arcVp c p) (Real.pi / 2) (arcRotAxis c p n)) (-(arcRadius c))

/-- `center = _vadd(start, _vmul(spoke, -1.0))` in `_arc`. -/
noncomputable def arcCenter (c p n : ControlPoint) : Vec3 :=
  vadd (arcStart c p) (vmul (arcSpoke c p n) (-1.0))

/-- The rotation loop of `_arc`: `for step in range(k): rotspoke =
_vtransform(rotspoke, rot_transform); self._g0p(c, _vadd(center, rotspoke))`. -/
noncomputable def arcSteps (c : ControlPoint) (center : Vec3) (rt : Mat3) :
    Nat → Vec3 → EngineState → EngineState
  | 0, _, st => st
  | k + 1, rotspoke, st =>
      arcSteps c center rt k (vtransform rotspoke rt)
        (g0p st c (vadd center (vtransform rotspoke rt)))

/-- `RoundedPath._arc(c, p, n)`: tessellate one finalized corner. -/
noncomputable def arc (st : EngineState) (c p n : ControlPoint) : EngineState :=
  let radius := arcRadius c
  let num_segments : ℤ := ⌊radius * c.angle / st.resolution⌋
  if num_segments < 1 then g0 st c
  else
    let rot_transform := vrot_transform (-c.angle / (num_segments : ℝ)) (arcRotAxis c p n)
    let st1 := g0p st c (vadd (arcCenter c p n) (arcSpoke c p n))
    arcSteps c (arcCenter c p n) rot_transform num_segments.toNat (arcSpoke c p n) st1

/-- The `ControlPoint` all of whose fields are zero; stands in for the
out-of-range accesses that never happen on the paths the code takes. -/
def cpDefault : ControlPoint := mkControlPoint 0 0 0 0 0

/-- `self.buffer[i]`. -/
def cpAt (l : List ControlPoint) (i : Nat) : ControlPoint := l.getD i cpDefault

/-- The loop body of `_deconflict_lin_d` on the two corners `p0 = buffer[i-1]`
and `p1 = buffer[i]` sharing edge `i` (Python mutates the two `ControlPoint`
objects in place; here the updated pair is returned and written back by
`deconflictEdge`). -/
noncomputable def deconflictPair (q0 q1 : ControlPoint) : ControlPoint × ControlPoint :=
  let missingd := q1.lin_d + q0.lin_d - q1.len
  if missingd ≤ 0 then (q0, q1)
  else
    let r0 := q0.lin_d * q0.lin_d_to_r
    let r1 := q1.lin_d * q1.lin_d_to_r
    let p0 := if r1 < r0 then
        { q0 with lin_d := max r1 (r0 - (missingd * q0.lin_d_to_r + EPSILON)) / q0.lin_d_to_r }
      else q0
    let p1 := if ¬ r1 < r0 ∧ r0 < r1 then
        { q1 with lin_d := max r0 (r1 - (missingd * q1.lin_d_to_r + EPSILON)) / q1.lin_d_to_r }
      else q1
    let missingd2 := p1.lin_d + p0.lin_d - p1.len
    if missingd2 ≤ 0 then (p0, p1)
    else if q0.lin_d_to_r ≤ 0 ∨ q1.lin_d_to_r ≤ 0 then
      ({ p0 with lin_d := 0 }, { p1 with lin_d := 0 })
    else
      let missingr_shared := missingd2 / (1 / q0.lin_d_to_r + 1 / q1.lin_d_to_r)
      ({ p0 with lin_d := max 0 (p0.lin_d - missingr_shared / q0.lin_d_to_r) },
        { p1 with lin_d := max 0 (p1.lin_d - missingr_shared / q1.lin_d_to_r) })

/-- One iteration of the loop of `_deconflict_lin_d` for edge `i`
(shared by `buffer[i-1]` and `buffer[i]`), writing the two updated corners
back into the buffer. -/
noncomputable def deconflictEdge (buf : List ControlPoint) (i : Nat) : List ControlPoint :=
  let r := deconflictPair (cpAt buf (i - 1)) (cpAt buf i)
  (buf.set (i - 1) r.1).set i r.2

/-- Stable insertion (ascending by `len`) used to embed Python's stable
`sorted(order, key=lambda a: self.buffer[a].len)`. -/
noncomputable def insertByLen (buf : List ControlPoint) (i : Nat) : List Nat → List Nat
  | [] => [i]
  | j :: rest =>
      if (cpAt buf j).len < (cpAt buf i).len then j :: insertByLen buf i rest
      else i :: j :: rest

/-- `sorted([i+1 for i in range(num_segments)], key=lambda a: buffer[a].len)`:
a stable ascending sort of the edge indices by shared-edge length. -/
noncomputable def sortByLen (buf : List ControlPoint) (l : List Nat) : List Nat :=
  l.foldr (insertByLen buf) []

/-- `RoundedPath._deconflict_lin_d(num_segments)`: process the edges
`1 .. num_segments`, shortest first. -/
noncomputable def deconflict_lin_d (buf : List ControlPoint) (num_segments : Nat) :
    List ControlPoint :=
  (sortByLen buf ((List.range num_segments).map (· + 1))).foldl deconflictEdge buf

/-- `self.buffer[0].vec = self.lastg0` after compaction. -/
def setHeadVec (l : List ControlPoint) (v : Vec3) : List ControlPoint :=
  match l with
  | [] => []
  | h :: t => { h with vec := v } :: t

/-- `RoundedPath._flush_buffer(num_segments)`. -/
noncomputable def flush_buffer (st : EngineState) (num_segments : ℤ) : EngineState :=
  if num_segments ≤ 0 then st
  else if st.buffer.length < 2 then { st with buffer := [] }
  else if st.buffer.length = 2 then
    let st1 := g0 st (cpAt st.buffer (st.buffer.length - 1))
    { st1 with buffer := [] }
  else
    let n := num_segments.toNat
    let st1 : EngineState := { st with buffer := deconflict_lin_d st.buffer (n + 1) }
    let st2 := (List.range n).foldl
      (fun s i => arc s (cpAt s.buffer (i + 1)) (cpAt s.buffer i) (cpAt s.buffer (i + 2))) st1
    { st2 with buffer := setHeadVec (st2.buffer.drop n) st2.lastg0 }

/-- The first phase of `RoundedPath._lineto(pos)`: append `pos`, then (once
three points are buffered) run the corner solver on the newly-interior
point `buffer[-2]`. -/
noncomputable def linetoBuf (st : EngineState) (pos : ControlPoint) : List ControlPoint :=
  let buf0 := st.buffer ++ [pos]
  if 3 ≤ buf0.length then
    buf0.set (buf0.length - 2)
      (calculate_corner (cpAt buf0 (buf0.length - 2)) (cpAt buf0 (buf0.length - 3))
        (cpAt buf0 (buf0.length - 1)))
  else buf0

/-- `RoundedPath._lineto(pos)`: append, compute the newly-interior corner,
then run the retirement policy. -/
noncomputable def lineto (st : EngineState) (pos : ControlPoint) : EngineState :=
  let buf := linetoBuf st pos
  if 2 ≤ buf.length ∧ pos.maxd ≤ 0 then
    let buf2 := buf.set (buf.length - 1)
      (calculate_zero_corner (cpAt buf (buf.length - 1)) (cpAt buf (buf.length - 2)))
    let st1 := flush_buffer { st with buffer := buf2 } ((buf2.length : ℤ) - 2)
    let st2 := g0 st1 (cpAt st1.buffer (st1.buffer.length - 1))
    { st2 with buffer := [] }
  else if 4 ≤ buf.length ∧
      (cpAt buf (buf.length - 3)).lin_d + (cpAt buf (buf.length - 2)).lin_d ≤
        (cpAt buf (buf.length - 2)).len then
    flush_buffer { st with buffer := buf } ((buf.length : ℤ) - 3)
  else
    { st with buffer := buf }

/-- The parameters of one `ROUNDED_G0` invocation, together with the state
reported by the external `gcode_move` collaborator: `X`/`Y`/`Z`/`F` are the
optional floats of the command (`D` defaults to `0.0`), `absolute` the
coordinate-mode flag, and `currentPos` the reported gcode position. -/
structure GArgs where
  xArg : Option ℝ
  yArg : Option ℝ
  zArg : Option ℝ
  fArg : Option ℝ
  d : ℝ
  absolute : Bool
  currentPos : Vec3

/-- The `ControlPoint` built at the end of `cmd_ROUNDED_G0`, with the
coordinate defaults taken from `currentPos` (as reassigned by the command). -/
def mkPoint (a : GArgs) (cur : Vec3) : ControlPoint :=
  mkControlPoint (a.xArg.getD cur.x) (a.yArg.getD cur.y) (a.zArg.getD cur.z) a.d
    (a.fArg.getD 0)

/-- The two `gcmd.error` raises of `cmd_ROUNDED_G0`. -/
inductive RErr where
  | unsupportedMode
  | positionDrift

/-- `self.real_G0(gcmd)`: the incoming command forwarded untouched. -/
def emitRaw (st : EngineState) : EngineState :=
  { st with emitted := st.emitted ++ [Emit.raw] }

/-- `RoundedPath.cmd_ROUNDED_G0(gcmd)`. A raise is modelled as `.error`;
no state is mutated before either raise in the source. -/
noncomputable def cmd_ROUNDED_G0 (st : EngineState) (a : GArgs) :
    Except RErr EngineState :=
  if a.d ≤ 0 ∧ st.buffer.length < 2 then .ok (emitRaw st)
  else if ¬ a.absolute then .error .unsupportedMode
  else if st.buffer.length = 0 then
    let st2 : EngineState :=
      { st with buffer := [mkControlPoint a.currentPos.x a.currentPos.y a.currentPos.z 0 0] }
    .ok (lineto st2 (mkPoint a a.currentPos))
  else if EPSILON < vdist a.currentPos (cpAt st.buffer 0).vec then .error .positionDrift
  else .ok (lineto st (mkPoint a (cpAt st.buffer (st.buffer.length - 1)).vec))

/-! ### Algebraic helpers about the vector math -/

/-- Euclidean inner product on `Vec3`. -/
def dot3 (a b : Vec3) : ℝ := a.x * b.x + a.y * b.y + a.z * b.z

/-- Squared Euclidean norm on `Vec3`. -/
def norm3sq (v : Vec3) : ℝ := dot3 v v

lemma norm3sq_nonneg (v : Vec3) : 0 ≤ norm3sq v := by
  simp only [norm3sq, dot3]
  nlinarith [sq_nonneg v.x, sq_nonneg v.y, sq_nonneg v.z]

lemma normVec_eq_sqrt (v : Vec3) : normVec v = Real.sqrt (norm3sq v) := by
  simp only [normVec, hypot3, norm3sq, dot3]
  ring_nf

lemma normVec_nonneg (v : Vec3) : 0 ≤ normVec v := by
  rw [normVec_eq_sqrt]; exact Real.sqrt_nonneg _

lemma normVec_sq (v : Vec3) : normVec v ^ 2 = norm3sq v := by
  rw [normVec_eq_sqrt]; exact Real.sq_sqrt (norm3sq_nonneg v)

lemma normVec_pos (v : Vec3) (h : 0 < norm3sq v) : 0 < normVec v := by
  rw [normVec_eq_sqrt]; exact Real.sqrt_pos.mpr h

lemma norm3sq_vmul (v : Vec3) (k : ℝ) : norm3sq (vmul v k) = k ^ 2 * norm3sq v := by
  simp only [norm3sq, dot3, vmul]; ring

lemma dot3_vmul_left (a b : Vec3) (k : ℝ) : dot3 (vmul a k) b = k * dot3 a b := by
  simp only [dot3, vmul]; ring

lemma dot3_comm (a b : Vec3) : dot3 a b = dot3 b a := by
  simp only [dot3]; ring

lemma dot3_cross_left (a b : Vec3) : dot3 (cross a b) a = 0 := by
  simp only [dot3, cross]; ring

lemma dot3_cross_mid (a v : Vec3) : dot3 v (cross a v) = 0 := by
  simp only [dot3, cross]; ring

lemma norm3sq_cross (a b : Vec3) :
    norm3sq (cross a b) = norm3sq a * norm3sq b - dot3 a b ^ 2 := by
  simp only [norm3sq, dot3, cross]; ring

lemma cross_vmul_vmul (a b : Vec3) (k m : ℝ) :
    cross (vmul a k) (vmul b m) = vmul (cross a b) (k * m) := by
  ext <;> simp only [cross, vmul] <;> ring

lemma norm3sq_vadd (u w : Vec3) :
    norm3sq (vadd u w) = norm3sq u + 2 * dot3 u w + norm3sq w := by
  simp only [norm3sq, dot3, vadd]; ring

/-- `_vnorm` of a vector of positive squared norm is a unit vector. -/
lemma norm3sq_vnorm (v : Vec3) (h : 0 < norm3sq v) : norm3sq (vnorm v) = 1 := by
  have hn : 0 < normVec v := normVec_pos v h
  rw [vnorm, norm3sq_vmul, div_pow, one_pow, normVec_sq]
  field_simp

/-- The matrix produced by `_vrot_transform` applies (via `_vtransform`)
exactly as `_vrot` rotates: shared algebraic form of the two code paths. -/
lemma vtransform_vrot_transform (w : Vec3) (angle : ℝ) (axis : Vec3) :
    vtransform w (vrot_transform angle axis) = vrot w angle axis := by
  ext <;> simp only [vtransform, vrot_transform, vrot] <;> ring

/-- Rodrigues form of `_vrot`: a pure ring identity of the source formula. -/
lemma vrot_rodrigues (v : Vec3) (angle : ℝ) (a : Vec3) :
    vrot v angle a =
      vadd (vadd (vmul v (Real.cos angle)) (vmul (cross a v) (Real.sin angle)))
        (vmul a ((1 - Real.cos angle) * dot3 a v)) := by
  ext <;> simp only [vrot, vadd, vmul, cross, dot3] <;> ring

/-- `_vrot` about a unit axis preserves the squared norm. -/
lemma norm3sq_vrot (v : Vec3) (angle : ℝ) (a : Vec3) (ha : norm3sq a = 1) :
    norm3sq (vrot v angle a) = norm3sq v := by
  have hsc : Real.sin angle ^ 2 + Real.cos angle ^ 2 = 1 := Real.sin_sq_add_cos_sq angle
  have ha' : a.x * a.x + a.y * a.y + a.z * a.z = 1 := by
    simpa [norm3sq, dot3] using ha
  simp only [norm3sq, dot3, vrot]
  linear_combination
    ((v.x * v.x + v.y * v.y + v.z * v.z) - (a.x * v.x + a.y * v.y + a.z * v.z) ^ 2) * hsc +
      (Real.sin angle ^ 2 * (v.x * v.x + v.y * v.y + v.z * v.z) +
        (1 - Real.cos angle) ^ 2 * (a.x * v.x + a.y * v.y + a.z * v.z) ^ 2) * ha'

/-- `_vtransform` with a `_vrot_transform` matrix about a unit axis
preserves the squared norm. -/
lemma norm3sq_vtransform (w : Vec3) (angle : ℝ) (a : Vec3) (ha : norm3sq a = 1) :
    norm3sq (vtransform w (vrot_transform angle a)) = norm3sq w := by
  rw [vtransform_vrot_transform]; exact norm3sq_vrot w angle a ha

/-! ### C10: the two rotation implementations agree -/

/-- C10: for every 3-vector `vec`, angle `a` and axis, applying the
precomputed matrix `_vrot_transform(a, axis)` via `_vtransform` yields
exactly `_vrot(vec, a, axis)`: the two rotation implementations are
equivalent. -/
theorem vrot_implementations_equivalent (vec : Vec3) (a : ℝ) (axis : Vec3) :
    vtransform vec (vrot_transform a axis) = vrot vec a axis := by
  ext <;> simp only [vtransform, vrot_transform, vrot] <;> ring

/-! ### C2: the corner geometry solver -/

/-- C2: for an interior control point `c` between `v1` and `v2` whose blend
distance has not been set yet, with computed turn angle
`θ = vangle(v1 - c, v2 - c)`: inside the epsilon guards `_calculate_corner`
leaves `blend_dist = 0` (no fillet); otherwise it stores
`blend_to_radius_ratio = tan(θ/2)` and
`blend_dist = (maxd·sin(θ/2)/(1 - sin(θ/2)))/tan(θ/2)`. -/
theorem calculate_corner_spec (c v1 v2 : ControlPoint) (h0 : c.lin_d = 0) :
    ((|vangle (vecto c v1) (vecto c v2)| < EPSILON_ANGLE ∨
        Real.pi - |vangle (vecto c v1) (vecto c v2)| < EPSILON_ANGLE) →
      (calculate_corner c v1 v2).lin_d = 0) ∧
    (¬ (|vangle (vecto c v1) (vecto c v2)| < EPSILON_ANGLE ∨
        Real.pi - |vangle (vecto c v1) (vecto c v2)| < EPSILON_ANGLE) →
      (calculate_corner c v1 v2).lin_d_to_r =
          Real.tan (vangle (vecto c v1) (vecto c v2) / 2) ∧
        (calculate_corner c v1 v2).lin_d =
          c.maxd * Real.sin (vangle (vecto c v1) (vecto c v2) / 2) /
              (1 - Real.sin (vangle (vecto c v1) (vecto c v2) / 2)) /
            Real.tan (vangle (vecto c v1) (vecto c v2) / 2)) := by
  constructor
  · intro h
    simp only [calculate_corner]
    rw [if_pos h]
    exact h0
  · intro h
    simp only [calculate_corner]
    rw [if_neg h]
    exact ⟨rfl, rfl⟩

/-- Witness for C2 at a concrete control point with `lin_d = 0`. -/
theorem calculate_corner_spec_witness :
    (mkControlPoint 0 0 0 1 0).lin_d = 0 ∧
    (((|vangle (vecto (mkControlPoint 0 0 0 1 0) (mkControlPoint 1 0 0 0 0))
            (vecto (mkControlPoint 0 0 0 1 0) (mkControlPoint 0 1 0 0 0))| < EPSILON_ANGLE ∨
        Real.pi - |vangle (vecto (mkControlPoint 0 0 0 1 0) (mkControlPoint 1 0 0 0 0))
            (vecto (mkControlPoint 0 0 0 1 0) (mkControlPoint 0 1 0 0 0))| < EPSILON_ANGLE) →
      (calculate_corner (mkControlPoint 0 0 0 1 0) (mkControlPoint 1 0 0 0 0)
          (mkControlPoint 0 1 0 0 0)).lin_d = 0) ∧
    (¬ (|vangle (vecto (mkControlPoint 0 0 0 1 0) (mkControlPoint 1 0 0 0 0))
            (vecto (mkControlPoint 0 0 0 1 0) (mkControlPoint 0 1 0 0 0))| < EPSILON_ANGLE ∨
        Real.pi - |vangle (vecto (mkControlPoint 0 0 0 1 0) (mkControlPoint 1 0 0 0 0))
            (vecto (mkControlPoint 0 0 0 1 0) (mkControlPoint 0 1 0 0 0))| < EPSILON_ANGLE) →
      (calculate_corner (mkControlPoint 0 0 0 1 0) (mkControlPoint 1 0 0 0 0)
          (mkControlPoint 0 1 0 0 0)).lin_d_to_r =
          Real.tan (vangle (vecto (mkControlPoint 0 0 0 1 0) (mkControlPoint 1 0 0 0 0))
              (vecto (mkControlPoint 0 0 0 1 0) (mkControlPoint 0 1 0 0 0)) / 2) ∧
        (calculate_corner (mkControlPoint 0 0 0 1 0) (mkControlPoint 1 0 0 0 0)
            (mkControlPoint 0 1 0 0 0)).lin_d =
          (mkControlPoint 0 0 0 1 0).maxd *
              Real.sin (vangle (vecto (mkControlPoint 0 0 0 1 0) (mkControlPoint 1 0 0 0 0))
                  (vecto (mkControlPoint 0 0 0 1 0) (mkControlPoint 0 1 0 0 0)) / 2) /
              (1 - Real.sin (vangle (vecto (mkControlPoint 0 0 0 1 0) (mkControlPoint 1 0 0 0 0))
                  (vecto (mkControlPoint 0 0 0 1 0) (mkControlPoint 0 1 0 0 0)) / 2)) /
            Real.tan (vangle (vecto (mkControlPoint 0 0 0 1 0) (mkControlPoint 1 0 0 0 0))
                (vecto (mkControlPoint 0 0 0 1 0) (mkControlPoint 0 1 0 0 0)) / 2))) :=
  ⟨rfl, calculate_corner_spec (mkControlPoint 0 0 0 1 0) (mkControlPoint 1 0 0 0 0)
    (mkControlPoint 0 1 0 0 0) rfl⟩

/-! ### C5: arc tessellation emission count -/

lemma arcSteps_emitted_length (c : ControlPoint) (center : Vec3) (rt : Mat3) :
    ∀ (k : Nat) (v : Vec3) (st : EngineState),
      (arcSteps c center rt k v st).emitted.length = st.emitted.length + k := by
  intro k
  induction k with
  | zero => intro v st; simp [arcSteps]
  | succ k ih =>
      intro v st
      rw [arcSteps, ih]
      simp [g0p]
      omega

/-- C5: for a finalized corner `c` the emitter computes
`segment_count = floor(radius · turn_angle / resolution)` with
`radius = blend_dist · blend_to_radius_ratio`; when `segment_count < 1` it
emits exactly one linear move targeted at `c`'s own position, otherwise it
emits exactly `segment_count + 1` linear moves. -/
theorem arc_emission_count (st : EngineState) (c p n : ControlPoint) :
    ((arc st c p n).emitted.length =
      st.emitted.length +
        (if (⌊arcRadius c * c.angle / st.resolution⌋ : ℤ) < 1 then 1
          else (⌊arcRadius c * c.angle / st.resolution⌋ : ℤ).toNat + 1)) ∧
    ((⌊arcRadius c * c.angle / st.resolution⌋ : ℤ) < 1 →
      (arc st c p n).emitted =
        st.emitted ++ [Emit.move c.vec (if 0 < c.f then some c.f else none)]) := by
  constructor
  · simp only [arc]
    split
    · simp [g0, g0p]
    · rw [arcSteps_emitted_length]
      simp [g0p]
      omega
  · intro h
    simp only [arc]
    rw [if_pos h]
    simp [g0, g0p]

/-- Witness for C5: a degenerate corner (`radius = 0`) collapses to a single
linear move to the corner's own position. -/
theorem arc_emission_count_witness :
    ((⌊arcRadius cpDefault * cpDefault.angle /
        (EngineState.mk 1 [] ⟨0, 0, 0⟩ []).resolution⌋ : ℤ) < 1) ∧
    (arc (EngineState.mk 1 [] ⟨0, 0, 0⟩ []) cpDefault cpDefault cpDefault).emitted =
      (EngineState.mk 1 [] ⟨0, 0, 0⟩ []).emitted ++
        [Emit.move cpDefault.vec (if 0 < cpDefault.f then some cpDefault.f else none)] := by
  have h : (⌊arcRadius cpDefault * cpDefault.angle /
      (EngineState.mk 1 [] ⟨0, 0, 0⟩ []).resolution⌋ : ℤ) < 1 := by
    have : arcRadius cpDefault * cpDefault.angle /
        (EngineState.mk 1 [] ⟨0, 0, 0⟩ []).resolution = 0 := by
      simp [arcRadius, cpDefault, mkControlPoint]
    rw [this]
    norm_num
  exact ⟨h, (arc_emission_count (EngineState.mk 1 [] ⟨0, 0, 0⟩ []) cpDefault cpDefault
    cpDefault).2 h⟩

/-! ### The deconflictor: pair-level arithmetic facts -/

/-- The numeric sanity conditions every control point of a real buffer
satisfies: blend distance, blend-to-radius ratio and incoming edge length
are nonnegative. -/
def InvCP (c : ControlPoint) : Prop := 0 ≤ c.lin_d ∧ 0 ≤ c.lin_d_to_r ∧ 0 ≤ c.len

/-- All points of a buffer satisfy `InvCP`. -/
def InvBuf (l : List ControlPoint) : Prop := ∀ c ∈ l, InvCP c

/-- The deconfliction postcondition for edge `i`: the blend distances of its
two owners fit inside the shared edge length. -/
def EdgeOK (l : List ControlPoint) (i : Nat) : Prop :=
  (cpAt l (i - 1)).lin_d + (cpAt l i).lin_d ≤ (cpAt l i).len

lemma deconflictPair_fst_fields (q0 q1 : ControlPoint) :
    (deconflictPair q0 q1).1.len = q0.len ∧
    (deconflictPair q0 q1).1.lin_d_to_r = q0.lin_d_to_r ∧
    (deconflictPair q0 q1).1.vec = q0.vec ∧
    (deconflictPair q0 q1).1.f = q0.f ∧
    (deconflictPair q0 q1).1.maxd = q0.maxd ∧
    (deconflictPair q0 q1).1.angle = q0.angle := by
  simp only [deconflictPair]
  split_ifs <;> simp

lemma deconflictPair_snd_fields (q0 q1 : ControlPoint) :
    (deconflictPair q0 q1).2.len = q1.len ∧
    (deconflictPair q0 q1).2.lin_d_to_r = q1.lin_d_to_r ∧
    (deconflictPair q0 q1).2.vec = q1.vec ∧
    (deconflictPair q0 q1).2.f = q1.f ∧
    (deconflictPair q0 q1).2.maxd = q1.maxd ∧
    (deconflictPair q0 q1).2.angle = q1.angle := by
  simp only [deconflictPair]
  split_ifs <;> simp

/-- Full behaviour of one deconfliction pass on one edge, under the numeric
sanity conditions: the resulting blend distances fit the shared edge length,
stay nonnegative, and never grow. -/
lemma deconflictPair_spec (q0 q1 : ControlPoint)
    (h0 : InvCP q0) (h1 : InvCP q1) :
    (deconflictPair q0 q1).1.lin_d + (deconflictPair q0 q1).2.lin_d ≤ q1.len ∧
    0 ≤ (deconflictPair q0 q1).1.lin_d ∧ 0 ≤ (deconflictPair q0 q1).2.lin_d ∧
    (deconflictPair q0 q1).1.lin_d ≤ q0.lin_d ∧
    (deconflictPair q0 q1).2.lin_d ≤ q1.lin_d := by
  obtain ⟨hA, ht0, hL0⟩ := h0
  obtain ⟨hB, ht1, hL1⟩ := h1
  have hEps : (0 : ℝ) < EPSILON := by norm_num [EPSILON]
  by_cases hm : q1.lin_d + q0.lin_d - q1.len ≤ 0
  · simp only [deconflictPair, if_pos hm]
    exact ⟨by linarith, hA, hB, le_refl _, le_refl _⟩
  · have hmpos : 0 < q1.lin_d + q0.lin_d - q1.len := lt_of_not_ge (by simpa using hm)
    rcases lt_trichotomy (q1.lin_d * q1.lin_d_to_r) (q0.lin_d * q0.lin_d_to_r) with hr | hr | hr
    · -- r1 < r0 : shrink p0 first
      have hnp1 : ¬ (¬ q1.lin_d * q1.lin_d_to_r < q0.lin_d * q0.lin_d_to_r ∧
          q0.lin_d * q0.lin_d_to_r < q1.lin_d * q1.lin_d_to_r) := by
        intro h; exact h.1 hr
      have ht0pos : 0 < q0.lin_d_to_r := by nlinarith [mul_nonneg hB ht1]
      have hApos : 0 < q0.lin_d := by nlinarith [mul_nonneg hB ht1]
      simp only [deconflictPair, if_neg hm, if_pos hr, if_neg hnp1]
      set M := q1.lin_d + q0.lin_d - q1.len with hM
      set R1 := q1.lin_d * q1.lin_d_to_r with hR1
      set R0 := q0.lin_d * q0.lin_d_to_r with hR0
      set W := R1 ⊔ (R0 - (M * q0.lin_d_to_r + EPSILON)) with hW
      have hWnn : 0 ≤ W := le_trans (mul_nonneg hB ht1) (le_max_left _ _)
      have hWle : W ≤ R0 := max_le hr.le (by nlinarith)
      have hD0le : W / q0.lin_d_to_r ≤ q0.lin_d := by
        rw [div_le_iff₀ ht0pos]
        calc W ≤ R0 := hWle
        _ = q0.lin_d * q0.lin_d_to_r := hR0
      split_ifs with h2 hg
      · exact ⟨by dsimp only; linarith, div_nonneg hWnn ht0pos.le, hB, hD0le, le_refl _⟩
      · exact ⟨by dsimp only; linarith, le_refl _, le_refl _, hA, hB⟩
      · -- proportional sharing; the earlier reduction capped at r1
        push_neg at hg
        have ht1pos : 0 < q1.lin_d_to_r := hg.2
        have hWcap : W = R1 := by
          rcases le_or_lt (R0 - (M * q0.lin_d_to_r + EPSILON)) R1 with hc | hc
          · exact max_eq_left hc
          · exfalso
            have hWeq : W = R0 - (M * q0.lin_d_to_r + EPSILON) := max_eq_right hc.le
            have hq : W / q0.lin_d_to_r = q0.lin_d - M - EPSILON / q0.lin_d_to_r := by
              rw [hWeq, hR0]
              field_simp
              ring
            have : q1.lin_d + W / q0.lin_d_to_r - q1.len = - (EPSILON / q0.lin_d_to_r) := by
              rw [hq, hM]; ring
            have h2' : ¬ q1.lin_d + W / q0.lin_d_to_r - q1.len ≤ 0 := h2
            apply h2'
            rw [this]
            have := div_pos hEps ht0pos
            linarith
        have hM2pos : 0 < q1.lin_d + W / q0.lin_d_to_r - q1.len := lt_of_not_ge (by simpa using h2)
        have hD0 : W / q0.lin_d_to_r = R1 / q0.lin_d_to_r := by rw [hWcap]
        have hB' : q1.lin_d = R1 / q1.lin_d_to_r := by
          rw [hR1, mul_div_cancel_right₀ _ (ne_of_gt ht1pos)]
        have huv : 0 < 1 / q0.lin_d_to_r + 1 / q1.lin_d_to_r := by positivity
        set M2 := q1.lin_d + W / q0.lin_d_to_r - q1.len with hM2
        set msh := M2 / (1 / q0.lin_d_to_r + 1 / q1.lin_d_to_r) with hmsh
        have hmshpos : 0 < msh := div_pos hM2pos huv
        have hmshle : msh ≤ R1 := by
          rw [hmsh, div_le_iff₀ huv]
          have hrhs : R1 * (1 / q0.lin_d_to_r + 1 / q1.lin_d_to_r) =
              R1 / q0.lin_d_to_r + R1 / q1.lin_d_to_r := by ring
          rw [hrhs, hM2, hD0]
          have : q1.lin_d = R1 / q1.lin_d_to_r := hB'
          linarith [hL1]
        have hfl0 : 0 ≤ W / q0.lin_d_to_r - msh / q0.lin_d_to_r := by
          have : W / q0.lin_d_to_r - msh / q0.lin_d_to_r = (R1 - msh) / q0.lin_d_to_r := by
            rw [hWcap]; ring
          rw [this]
          exact div_nonneg (by linarith) ht0pos.le
        have hfl1 : 0 ≤ q1.lin_d - msh / q1.lin_d_to_r := by
          have : q1.lin_d - msh / q1.lin_d_to_r = (R1 - msh) / q1.lin_d_to_r := by
            rw [hB']; ring
          rw [this]
          exact div_nonneg (by linarith) ht1pos.le
        have hshare : msh / q0.lin_d_to_r + msh / q1.lin_d_to_r = M2 := by
          have h1 : msh / q0.lin_d_to_r + msh / q1.lin_d_to_r =
              msh * (1 / q0.lin_d_to_r + 1 / q1.lin_d_to_r) := by ring
          rw [h1, hmsh, div_mul_cancel₀ _ (ne_of_gt huv)]
        dsimp only
        rw [max_eq_right hfl0, max_eq_right hfl1]
        refine ⟨by linarith, hfl0, hfl1, ?_, ?_⟩
        · have : W / q0.lin_d_to_r ≤ q0.lin_d := hD0le
          have hmsh0 : 0 ≤ msh / q0.lin_d_to_r := div_nonneg hmshpos.le ht0pos.le
          linarith
        · have hmsh1 : 0 ≤ msh / q1.lin_d_to_r := div_nonneg hmshpos.le ht1pos.le
          linarith
    · -- r1 = r0 : no single-side reduction, straight to proportional sharing
      have hn0 : ¬ q1.lin_d * q1.lin_d_to_r < q0.lin_d * q0.lin_d_to_r := by rw [hr]; exact lt_irrefl _
      have hn1 : ¬ (¬ q1.lin_d * q1.lin_d_to_r < q0.lin_d * q0.lin_d_to_r ∧
          q0.lin_d * q0.lin_d_to_r < q1.lin_d * q1.lin_d_to_r) := by
        intro h; rw [hr] at h; exact lt_irrefl _ h.2
      simp only [deconflictPair, if_neg hm, if_neg hn0, if_neg hn1]
      split_ifs with hg
      · exact ⟨by dsimp only; linarith, le_refl _, le_refl _, hA, hB⟩
      · push_neg at hg
        have ht0pos : 0 < q0.lin_d_to_r := hg.1
        have ht1pos : 0 < q1.lin_d_to_r := hg.2
        set R1 := q1.lin_d * q1.lin_d_to_r with hR1
        have hA' : q0.lin_d = R1 / q0.lin_d_to_r := by
          rw [hr, mul_div_cancel_right₀ _ (ne_of_gt ht0pos)]
        have hB' : q1.lin_d = R1 / q1.lin_d_to_r := by
          rw [hR1, mul_div_cancel_right₀ _ (ne_of_gt ht1pos)]
        have huv : 0 < 1 / q0.lin_d_to_r + 1 / q1.lin_d_to_r := by positivity
        set M2 := q1.lin_d + q0.lin_d - q1.len with hM2
        set msh := M2 / (1 / q0.lin_d_to_r + 1 / q1.lin_d_to_r) with hmsh
        have hM2pos : 0 < M2 := hmpos
        have hmshpos : 0 < msh := div_pos hM2pos huv
        have hmshle : msh ≤ R1 := by
          rw [hmsh, div_le_iff₀ huv]
          have hrhs : R1 * (1 / q0.lin_d_to_r + 1 / q1.lin_d_to_r) =
              R1 / q0.lin_d_to_r + R1 / q1.lin_d_to_r := by ring
          rw [hrhs, hM2]
          linarith [hL1, hA'.symm.le, hB'.symm.le, hA'.ge]
        have hfl0 : 0 ≤ q0.lin_d - msh / q0.lin_d_to_r := by
          have : q0.lin_d - msh / q0.lin_d_to_r = (R1 - msh) / q0.lin_d_to_r := by
            rw [hA']; ring
          rw [this]
          exact div_nonneg (by linarith) ht0pos.le
        have hfl1 : 0 ≤ q1.lin_d - msh / q1.lin_d_to_r := by
          have : q1.lin_d - msh / q1.lin_d_to_r = (R1 - msh) / q1.lin_d_to_r := by
            rw [hB']; ring
          rw [this]
          exact div_nonneg (by linarith) ht1pos.le
        have hshare : msh / q0.lin_d_to_r + msh / q1.lin_d_to_r = M2 := by
          have h1 : msh / q0.lin_d_to_r + msh / q1.lin_d_to_r =
              msh * (1 / q0.lin_d_to_r + 1 / q1.lin_d_to_r) := by ring
          rw [h1, hmsh, div_mul_cancel₀ _ (ne_of_gt huv)]
        dsimp only
        rw [max_eq_right hfl0, max_eq_right hfl1]
        have hmsh0 : 0 ≤ msh / q0.lin_d_to_r := div_nonneg hmshpos.le ht0pos.le
        have hmsh1 : 0 ≤ msh / q1.lin_d_to_r := div_nonneg hmshpos.le ht1pos.le
        exact ⟨by linarith, hfl0, hfl1, by linarith, by linarith⟩
    · -- r0 < r1 : shrink p1 first
      have hn0 : ¬ q1.lin_d * q1.lin_d_to_r < q0.lin_d * q0.lin_d_to_r := not_lt_of_gt hr
      have hp1 : ¬ q1.lin_d * q1.lin_d_to_r < q0.lin_d * q0.lin_d_to_r ∧
          q0.lin_d * q0.lin_d_to_r < q1.lin_d * q1.lin_d_to_r := ⟨hn0, hr⟩
      have ht1pos : 0 < q1.lin_d_to_r := by nlinarith [mul_nonneg hA ht0]
      have hBpos : 0 < q1.lin_d := by nlinarith [mul_nonneg hA ht0]
      simp only [deconflictPair, if_neg hm, if_neg hn0, if_pos hp1]
      set M := q1.lin_d + q0.lin_d - q1.len with hM
      set R1 := q1.lin_d * q1.lin_d_to_r with hR1
      set R0 := q0.lin_d * q0.lin_d_to_r with hR0
      set W := R0 ⊔ (R1 - (M * q1.lin_d_to_r + EPSILON)) with hW
      have hWnn : 0 ≤ W := le_trans (mul_nonneg hA ht0) (le_max_left _ _)
      have hWle : W ≤ R1 := max_le hr.le (by nlinarith)
      have hD1le : W / q1.lin_d_to_r ≤ q1.lin_d := by
        rw [div_le_iff₀ ht1pos]
        calc W ≤ R1 := hWle
        _ = q1.lin_d * q1.lin_d_to_r := hR1
      split_ifs with h2 hg
      · exact ⟨by dsimp only; linarith, hA, div_nonneg hWnn ht1pos.le, le_refl _, hD1le⟩
      · exact ⟨by dsimp only; linarith, le_refl _, le_refl _, hA, hB⟩
      · push_neg at hg
        have ht0pos : 0 < q0.lin_d_to_r := hg.1
        have hWcap : W = R0 := by
          rcases le_or_lt (R1 - (M * q1.lin_d_to_r + EPSILON)) R0 with hc | hc
          · exact max_eq_left hc
          · exfalso
            have hWeq : W = R1 - (M * q1.lin_d_to_r + EPSILON) := max_eq_right hc.le
            have hq : W / q1.lin_d_to_r = q1.lin_d - M - EPSILON / q1.lin_d_to_r := by
              rw [hWeq, hR1]
              field_simp
              ring
            have hzz : W / q1.lin_d_to_r + q0.lin_d - q1.len = - (EPSILON / q1.lin_d_to_r) := by
              rw [hq, hM]; ring
            apply h2
            rw [hzz]
            have := div_pos hEps ht1pos
            linarith
        have hM2pos : 0 < W / q1.lin_d_to_r + q0.lin_d - q1.len := lt_of_not_ge (by simpa using h2)
        have hA' : q0.lin_d = R0 / q0.lin_d_to_r := by
          rw [hR0, mul_div_cancel_right₀ _ (ne_of_gt ht0pos)]
        have huv : 0 < 1 / q0.lin_d_to_r + 1 / q1.lin_d_to_r := by positivity
        set M2 := W / q1.lin_d_to_r + q0.lin_d - q1.len with hM2
        set msh := M2 / (1 / q0.lin_d_to_r + 1 / q1.lin_d_to_r) with hmsh
        have hmshpos : 0 < msh := div_pos hM2pos huv
        have hmshle : msh ≤ R0 := by
          rw [hmsh, div_le_iff₀ huv]
          have hrhs : R0 * (1 / q0.lin_d_to_r + 1 / q1.lin_d_to_r) =
              R0 / q0.lin_d_to_r + R0 / q1.lin_d_to_r := by ring
          rw [hrhs, hM2, hWcap]
          linarith [hL1, hA'.ge, hA'.le]
        have hfl0 : 0 ≤ q0.lin_d - msh / q0.lin_d_to_r := by
          have : q0.lin_d - msh / q0.lin_d_to_r = (R0 - msh) / q0.lin_d_to_r := by
            rw [hA']; ring
          rw [this]
          exact div_nonneg (by linarith) ht0pos.le
        have hfl1 : 0 ≤ W / q1.lin_d_to_r - msh / q1.lin_d_to_r := by
          have : W / q1.lin_d_to_r - msh / q1.lin_d_to_r = (R0 - msh) / q1.lin_d_to_r := by
            rw [hWcap]; ring
          rw [this]
          exact div_nonneg (by linarith) ht1pos.le
        have hshare : msh / q0.lin_d_to_r + msh / q1.lin_d_to_r = M2 := by
          have h1 : msh / q0.lin_d_to_r + msh / q1.lin_d_to_r =
              msh * (1 / q0.lin_d_to_r + 1 / q1.lin_d_to_r) := by ring
          rw [h1, hmsh, div_mul_cancel₀ _ (ne_of_gt huv)]
        dsimp only
        rw [max_eq_right hfl0, max_eq_right hfl1]
        have hmsh0 : 0 ≤ msh / q0.lin_d_to_r := div_nonneg hmshpos.le ht0pos.le
        have hmsh1 : 0 ≤ msh / q1.lin_d_to_r := div_nonneg hmshpos.le ht1pos.le
        exact ⟨by linarith, hfl0, hfl1, by linarith, by linarith⟩

/-! ### The deconflictor: buffer-level lemmas -/

lemma cpAt_set_self : ∀ (l : List ControlPoint) (i : Nat) (c : ControlPoint),
    i < l.length → cpAt (l.set i c) i = c := by
  intro l
  induction l with
  | nil => intro i c h; simp at h
  | cons a t ih =>
      intro i c h
      cases i with
      | zero => simp [cpAt, List.getD]
      | succ j =>
          simp only [List.set, cpAt, List.getD] at *
          exact ih j c (by simpa using h)

lemma cpAt_set_ne : ∀ (l : List ControlPoint) (i j : Nat) (c : ControlPoint),
    i ≠ j → cpAt (l.set i c) j = cpAt l j := by
  intro l
  induction l with
  | nil => intro i j c h; simp [cpAt, List.getD]
  | cons a t ih =>
      intro i j c h
      cases i with
      | zero =>
          cases j with
          | zero => exact absurd rfl h
          | succ j' => simp [cpAt, List.getD]
      | succ i' =>
          cases j with
          | zero => simp [cpAt, List.getD]
          | succ j' =>
              simp only [List.set, cpAt, List.getD] at *
              exact ih i' j' c (by omega)

lemma cpAt_oob : ∀ (l : List ControlPoint) (i : Nat), l.length ≤ i → cpAt l i = cpDefault := by
  intro l
  induction l with
  | nil => intro i h; simp [cpAt, List.getD]
  | cons a t ih =>
      intro i h
      cases i with
      | zero => simp at h
      | succ j => simp only [cpAt, List.getD] at *; exact ih j (by simpa using h)

lemma set_oob : ∀ (l : List ControlPoint) (i : Nat) (c : ControlPoint),
    l.length ≤ i → l.set i c = l := by
  intro l
  induction l with
  | nil => intro i c h; simp
  | cons a t ih =>
      intro i c h
      cases i with
      | zero => simp at h
      | succ j => simp only [List.set]; rw [ih j c (by simpa using h)]

lemma cpAt_mem : ∀ (l : List ControlPoint) (i : Nat), i < l.length → cpAt l i ∈ l := by
  intro l
  induction l with
  | nil => intro i h; simp at h
  | cons a t ih =>
      intro i h
      cases i with
      | zero => simp [cpAt, List.getD]
      | succ j =>
          simp only [cpAt, List.getD] at *
          exact List.mem_cons_of_mem a (ih j (by simpa using h))

lemma invCP_cpDefault : InvCP cpDefault := by
  refine ⟨le_refl 0, le_refl 0, le_refl 0⟩

lemma invCP_cpAt (l : List ControlPoint) (h : InvBuf l) (i : Nat) : InvCP (cpAt l i) := by
  rcases lt_or_ge i l.length with h' | h'
  · exact h _ (cpAt_mem l i h')
  · rw [cpAt_oob l i h']; exact invCP_cpDefault

lemma length_deconflictEdge (buf : List ControlPoint) (i : Nat) :
    (deconflictEdge buf i).length = buf.length := by
  simp [deconflictEdge]

lemma invBuf_deconflictEdge (buf : List ControlPoint) (i : Nat) (hInv : InvBuf buf) :
    InvBuf (deconflictEdge buf i) := by
  have h0 := invCP_cpAt buf hInv (i - 1)
  have h1 := invCP_cpAt buf hInv i
  have hs := deconflictPair_spec (cpAt buf (i - 1)) (cpAt buf i) h0 h1
  have hf0 := deconflictPair_fst_fields (cpAt buf (i - 1)) (cpAt buf i)
  have hf1 := deconflictPair_snd_fields (cpAt buf (i - 1)) (cpAt buf i)
  intro c hc
  simp only [deconflictEdge] at hc
  rcases List.mem_or_eq_of_mem_set hc with hc1 | rfl
  · rcases List.mem_or_eq_of_mem_set hc1 with hc2 | rfl
    · exact hInv _ hc2
    · exact ⟨hs.2.1, hf0.2.1 ▸ h0.2.1, hf0.1 ▸ h0.2.2⟩
  · exact ⟨hs.2.2.1, hf1.2.1 ▸ h1.2.1, hf1.1 ▸ h1.2.2⟩

lemma deconflictEdge_lin_d_le (buf : List ControlPoint) (i : Nat) (h1 : 1 ≤ i)
    (hInv : InvBuf buf) (j : Nat) :
    (cpAt (deconflictEdge buf i) j).lin_d ≤ (cpAt buf j).lin_d := by
  have hs := deconflictPair_spec (cpAt buf (i - 1)) (cpAt buf i)
    (invCP_cpAt buf hInv (i - 1)) (invCP_cpAt buf hInv i)
  simp only [deconflictEdge]
  by_cases hj0 : j = i - 1
  · subst hj0
    rcases lt_or_ge (i - 1) buf.length with hlt | hge
    · rw [cpAt_set_ne _ i (i - 1) _ (by omega), cpAt_set_self _ _ _ hlt]
      exact hs.2.2.2.1
    · rw [set_oob buf (i - 1) _ hge, set_oob buf i _ (by omega)]
  · by_cases hji : j = i
    · rw [hji]
      rcases lt_or_ge i buf.length with hlt | hge
      · rw [cpAt_set_self _ _ _ (by simpa using hlt)]
        exact hs.2.2.2.2
      · rw [cpAt_oob _ i (by simpa using hge), cpAt_oob buf i hge]
    · rw [cpAt_set_ne _ i j _ (by omega), cpAt_set_ne _ (i - 1) j _ (by omega)]

lemma deconflictEdge_preserves (buf : List ControlPoint) (i : Nat) (h1 : 1 ≤ i) (j : Nat) :
    (cpAt (deconflictEdge buf i) j).len = (cpAt buf j).len ∧
    (cpAt (deconflictEdge buf i) j).lin_d_to_r = (cpAt buf j).lin_d_to_r ∧
    (cpAt (deconflictEdge buf i) j).vec = (cpAt buf j).vec ∧
    (cpAt (deconflictEdge buf i) j).f = (cpAt buf j).f := by
  have hf0 := deconflictPair_fst_fields (cpAt buf (i - 1)) (cpAt buf i)
  have hf1 := deconflictPair_snd_fields (cpAt buf (i - 1)) (cpAt buf i)
  simp only [deconflictEdge]
  by_cases hj0 : j = i - 1
  · subst hj0
    rcases lt_or_ge (i - 1) buf.length with hlt | hge
    · rw [cpAt_set_ne _ i (i - 1) _ (by omega), cpAt_set_self _ _ _ hlt]
      exact ⟨hf0.1, hf0.2.1, hf0.2.2.1, hf0.2.2.2.1⟩
    · rw [set_oob buf (i - 1) _ hge, set_oob buf i _ (by omega)]
      exact ⟨rfl, rfl, rfl, rfl⟩
  · by_cases hji : j = i
    · rw [hji]
      rcases lt_or_ge i buf.length with hlt | hge
      · rw [cpAt_set_self _ _ _ (by simpa using hlt)]
        exact ⟨hf1.1, hf1.2.1, hf1.2.2.1, hf1.2.2.2.1⟩
      · rw [cpAt_oob _ i (by simpa using hge), cpAt_oob buf i hge]
        exact ⟨rfl, rfl, rfl, rfl⟩
    · rw [cpAt_set_ne _ i j _ (by omega), cpAt_set_ne _ (i - 1) j _ (by omega)]
      exact ⟨rfl, rfl, rfl, rfl⟩

lemma edgeOK_deconflictEdge_self (buf : List ControlPoint) (i : Nat) (h1 : 1 ≤ i)
    (hlen : i < buf.length) (hInv : InvBuf buf) : EdgeOK (deconflictEdge buf i) i := by
  have hs := deconflictPair_spec (cpAt buf (i - 1)) (cpAt buf i)
    (invCP_cpAt buf hInv (i - 1)) (invCP_cpAt buf hInv i)
  have hf1 := deconflictPair_snd_fields (cpAt buf (i - 1)) (cpAt buf i)
  unfold EdgeOK
  simp only [deconflictEdge]
  rw [cpAt_set_ne _ i (i - 1) _ (by omega), cpAt_set_self _ _ _ (by omega),
    cpAt_set_self _ _ _ (by simpa using hlen)]
  rw [hf1.1]
  exact hs.1

lemma edgeOK_deconflictEdge_mono (buf : List ControlPoint) (i j : Nat) (h1 : 1 ≤ i)
    (hInv : InvBuf buf) (hOK : EdgeOK buf j) : EdgeOK (deconflictEdge buf i) j := by
  unfold EdgeOK at *
  have ha := deconflictEdge_lin_d_le buf i h1 hInv (j - 1)
  have hb := deconflictEdge_lin_d_le buf i h1 hInv j
  have hl := (deconflictEdge_preserves buf i h1 j).1
  rw [hl]
  linarith

lemma foldl_deconflict_invBuf (order : List Nat) :
    ∀ (s : List ControlPoint), InvBuf s → InvBuf (order.foldl deconflictEdge s) := by
  induction order with
  | nil => intro s h; exact h
  | cons i rest ih => intro s h; exact ih _ (invBuf_deconflictEdge s i h)

lemma foldl_deconflict_length (order : List Nat) :
    ∀ (s : List ControlPoint), (order.foldl deconflictEdge s).length = s.length := by
  induction order with
  | nil => intro s; rfl
  | cons i rest ih => intro s; rw [List.foldl_cons, ih, length_deconflictEdge]

lemma foldl_deconflict_edgeOK_mono (order : List Nat) :
    ∀ (s : List ControlPoint) (j : Nat), (∀ i ∈ order, 1 ≤ i) → InvBuf s →
      EdgeOK s j → EdgeOK (order.foldl deconflictEdge s) j := by
  induction order with
  | nil => intro s j _ _ h; exact h
  | cons i rest ih =>
      intro s j hall hInv hOK
      exact ih _ j (fun x hx => hall x (List.mem_cons_of_mem i hx))
        (invBuf_deconflictEdge s i hInv)
        (edgeOK_deconflictEdge_mono s i j (hall i (List.mem_cons_self i rest)) hInv hOK)

lemma foldl_deconflict_edgeOK (order : List Nat) :
    ∀ (s : List ControlPoint), (∀ i ∈ order, 1 ≤ i ∧ i < s.length) → InvBuf s →
      ∀ j ∈ order, EdgeOK (order.foldl deconflictEdge s) j := by
  induction order with
  | nil => intro s _ _ j hj; simp at hj
  | cons i rest ih =>
      intro s hall hInv j hj
      have hi := hall i (List.mem_cons_self i rest)
      rcases List.mem_cons.mp hj with rfl | hjr
      · rw [List.foldl_cons]
        exact foldl_deconflict_edgeOK_mono rest _ j
          (fun x hx => (hall x (List.mem_cons_of_mem j hx)).1)
          (invBuf_deconflictEdge s j hInv)
          (edgeOK_deconflictEdge_self s j hi.1 hi.2 hInv)
      · rw [List.foldl_cons]
        exact ih _ (fun x hx => ⟨(hall x (List.mem_cons_of_mem i hx)).1, by
            rw [length_deconflictEdge]; exact (hall x (List.mem_cons_of_mem i hx)).2⟩)
          (invBuf_deconflictEdge s i hInv) j hjr

lemma mem_insertByLen (buf : List ControlPoint) (i : Nat) :
    ∀ (l : List Nat) (j : Nat), j ∈ insertByLen buf i l ↔ j = i ∨ j ∈ l := by
  intro l
  induction l with
  | nil => intro j; simp [insertByLen]
  | cons a t ih =>
      intro j
      simp only [insertByLen]
      split_ifs with h
      · rw [List.mem_cons, ih j, List.mem_cons]
        tauto
      · rw [List.mem_cons, List.mem_cons]

lemma mem_sortByLen (buf : List ControlPoint) :
    ∀ (l : List Nat) (j : Nat), j ∈ sortByLen buf l ↔ j ∈ l := by
  intro l
  induction l with
  | nil => intro j; simp [sortByLen]
  | cons a t ih =>
      intro j
      show j ∈ insertByLen buf a (sortByLen buf t) ↔ _
      rw [mem_insertByLen, ih j, List.mem_cons]

lemma mem_edge_indices (num i : Nat) :
    i ∈ (List.range num).map (· + 1) ↔ 1 ≤ i ∧ i ≤ num := by
  constructor
  · intro h
    obtain ⟨k, hk, rfl⟩ := List.mem_map.mp h
    have := List.mem_range.mp hk
    omega
  · intro ⟨ha, hb⟩
    exact List.mem_map.mpr ⟨i - 1, List.mem_range.mpr (by omega), by omega⟩

/-! ### C3: the deconfliction postcondition -/

/-- C3: after `_deconflict_lin_d` has processed the edges `1 .. num` of a
buffer (whose blend distances, ratios and edge lengths are nonnegative, as
the solver produces them), every processed edge `i` satisfies
`blend_dist[i-1] + blend_dist[i] ≤ edge_len[i]` — in particular within
epsilon — including the proportional-sharing and flooring branches. -/
theorem deconflict_lin_d_postcondition (buf : List ControlPoint) (num : Nat)
    (hInv : InvBuf buf) (hnum : num < buf.length) (i : Nat) (h1 : 1 ≤ i) (h2 : i ≤ num) :
    (cpAt (deconflict_lin_d buf num) (i - 1)).lin_d +
        (cpAt (deconflict_lin_d buf num) i).lin_d ≤
      (cpAt (deconflict_lin_d buf num) i).len := by
  have hmem : i ∈ sortByLen buf ((List.range num).map (· + 1)) := by
    rw [mem_sortByLen, mem_edge_indices]; exact ⟨h1, h2⟩
  have hall : ∀ x ∈ sortByLen buf ((List.range num).map (· + 1)), 1 ≤ x ∧ x < buf.length := by
    intro x hx
    rw [mem_sortByLen, mem_edge_indices] at hx
    exact ⟨hx.1, by omega⟩
  exact foldl_deconflict_edgeOK _ buf hall hInv i hmem

/-- Witness for C3 on a concrete two-point buffer. -/
theorem deconflict_lin_d_postcondition_witness :
    InvBuf [mkControlPoint 0 0 0 0 0, mkControlPoint 1 0 0 0 0] ∧
    (cpAt (deconflict_lin_d [mkControlPoint 0 0 0 0 0, mkControlPoint 1 0 0 0 0] 1) 0).lin_d +
        (cpAt (deconflict_lin_d [mkControlPoint 0 0 0 0 0, mkControlPoint 1 0 0 0 0] 1) 1).lin_d ≤
      (cpAt (deconflict_lin_d [mkControlPoint 0 0 0 0 0, mkControlPoint 1 0 0 0 0] 1) 1).len := by
  have hInv : InvBuf [mkControlPoint 0 0 0 0 0, mkControlPoint 1 0 0 0 0] := by
    intro c hc
    rcases List.mem_cons.mp hc with rfl | hc2
    · exact ⟨le_refl 0, le_refl 0, le_refl 0⟩
    · rcases List.mem_cons.mp hc2 with rfl | hc3
      · exact ⟨le_refl 0, le_refl 0, le_refl 0⟩
      · simp at hc3
  exact ⟨hInv, deconflict_lin_d_postcondition _ 1 hInv (by norm_num) 1 (le_refl 1) (le_refl 1)⟩

/-! ### C8: individual blend distance versus its edge length -/

/-- C8 (amended): after deconfliction has run over the two owners of a
point's incoming edge, that point's blend distance is at most the full edge
length `edge_len_in` (not half of it: only the sum of the two owners'
blend distances is bounded by the edge). -/
theorem deconflict_lin_d_blend_le_edge (buf : List ControlPoint) (num : Nat)
    (hInv : InvBuf buf) (hnum : num < buf.length) (i : Nat) (h1 : 1 ≤ i) (h2 : i ≤ num) :
    (cpAt (deconflict_lin_d buf num) i).lin_d ≤ (cpAt (deconflict_lin_d buf num) i).len := by
  have hmem : i ∈ sortByLen buf ((List.range num).map (· + 1)) := by
    rw [mem_sortByLen, mem_edge_indices]; exact ⟨h1, h2⟩
  have hall : ∀ x ∈ sortByLen buf ((List.range num).map (· + 1)), 1 ≤ x ∧ x < buf.length := by
    intro x hx
    rw [mem_sortByLen, mem_edge_indices] at hx
    exact ⟨hx.1, by omega⟩
  have hOK := foldl_deconflict_edgeOK _ buf hall hInv i hmem
  have hInv' : InvBuf (deconflict_lin_d buf num) := foldl_deconflict_invBuf _ buf hInv
  have h0 := (invCP_cpAt _ hInv' (i - 1)).1
  unfold EdgeOK at hOK
  unfold deconflict_lin_d at *
  linarith


/-- Witness for the amended C8 on a concrete two-point buffer. -/
theorem deconflict_lin_d_blend_le_edge_witness :
    InvBuf [mkControlPoint 0 0 0 0 0, mkControlPoint 2 0 0 0 0] ∧
    (cpAt (deconflict_lin_d [mkControlPoint 0 0 0 0 0, mkControlPoint 2 0 0 0 0] 1) 1).lin_d ≤
      (cpAt (deconflict_lin_d [mkControlPoint 0 0 0 0 0, mkControlPoint 2 0 0 0 0] 1) 1).len := by
  have hInv : InvBuf [mkControlPoint 0 0 0 0 0, mkControlPoint 2 0 0 0 0] := by
    intro c hc
    rcases List.mem_cons.mp hc with rfl | hc2
    · exact ⟨le_refl 0, le_refl 0, le_refl 0⟩
    · rcases List.mem_cons.mp hc2 with rfl | hc3
      · exact ⟨le_refl 0, le_refl 0, le_refl 0⟩
      · simp at hc3
  exact ⟨hInv, deconflict_lin_d_blend_le_edge _ 1 hInv (by norm_num) 1 (le_refl 1) (le_refl 1)⟩

/-- A concrete right-angle corner: vertex `(0.1, 0, 0)` with deviation
`0.4`, between the origin and `(0.1, 5, 0)`; its incoming edge is only
`0.1` long. -/
noncomputable def cornerExamplePoint : ControlPoint :=
  calculate_corner (mkControlPoint 0.1 0 0 0.4 0) (mkControlPoint 0 0 0 0 0)
    (mkControlPoint 0.1 5 0 0 0)

/-- A two-point buffer: the anchor and the concrete corner above, exactly
as the ingestion path builds them. -/
noncomputable def cornerExampleBuf : List ControlPoint :=
  [mkControlPoint 0 0 0 0 0, cornerExamplePoint]

lemma cornerExamplePoint_fields :
    cornerExamplePoint.len = 0.1 ∧ cornerExamplePoint.lin_d_to_r = 1 ∧
    cornerExamplePoint.lin_d = 0.4 * (Real.sqrt 2 / 2) / (1 - Real.sqrt 2 / 2) := by
  have hangle : vangle (vecto (mkControlPoint 0.1 0 0 0.4 0) (mkControlPoint 0 0 0 0 0))
      (vecto (mkControlPoint 0.1 0 0 0.4 0) (mkControlPoint 0.1 5 0 0 0)) = Real.pi / 2 := by
    simp only [vangle, vecto, atan2, mkControlPoint, hypot3]
    apply Complex.arg_eq_pi_div_two_iff.mpr
    constructor
    · norm_num
    · show (0:ℝ) < Real.sqrt _
      apply Real.sqrt_pos.mpr
      norm_num
  have hlen : normVec (vecto (mkControlPoint 0.1 0 0 0.4 0) (mkControlPoint 0 0 0 0 0)) = 0.1 := by
    simp only [normVec, vecto, mkControlPoint, hypot3]
    rw [show ((0:ℝ) - 0.1) ^ 2 + (0 - 0) ^ 2 + (0 - 0) ^ 2 = 0.1 ^ 2 by norm_num,
      Real.sqrt_sq (by norm_num)]
  have hguard : ¬ (|Real.pi / 2| < EPSILON_ANGLE ∨ Real.pi - |Real.pi / 2| < EPSILON_ANGLE) := by
    have hpi := Real.pi_gt_three
    rw [abs_of_nonneg (by linarith)]
    push_neg
    constructor <;> [skip; skip] <;> norm_num [EPSILON_ANGLE] <;> linarith
  have hsin : Real.sin (Real.pi / 2 / 2) = Real.sqrt 2 / 2 := by
    rw [show Real.pi / 2 / 2 = Real.pi / 4 by ring, Real.sin_pi_div_four]
  have htan : Real.tan (Real.pi / 2 / 2) = 1 := by
    rw [show Real.pi / 2 / 2 = Real.pi / 4 by ring, Real.tan_pi_div_four]
  unfold cornerExamplePoint calculate_corner
  simp only
  rw [hangle, hlen]
  rw [if_neg hguard]
  rw [hsin, htan]
  simp [mkControlPoint]

lemma cornerExamplePoint_lin_d_gt : 0.101 < cornerExamplePoint.lin_d := by
  rw [cornerExamplePoint_fields.2.2]
  have h1 : (1.4 : ℝ) < Real.sqrt 2 := by
    have := Real.sq_sqrt (by norm_num : (0:ℝ) ≤ 2)
    nlinarith [Real.sqrt_nonneg 2]
  have h2 : Real.sqrt 2 < 1.5 := by
    have := Real.sq_sqrt (by norm_num : (0:ℝ) ≤ 2)
    nlinarith [Real.sqrt_nonneg 2]
  have hden : 0 < 1 - Real.sqrt 2 / 2 := by linarith
  rw [lt_div_iff₀ hden]
  linarith

lemma deconflictPair_cornerExample : deconflictPair (mkControlPoint 0 0 0 0 0) cornerExamplePoint =
    (mkControlPoint 0 0 0 0 0,
      { vec := cornerExamplePoint.vec, f := cornerExamplePoint.f, maxd := cornerExamplePoint.maxd,
        angle := cornerExamplePoint.angle, len := 0.1, lin_d := 0.099, lin_d_to_r := 1 }) := by
  have hX := cornerExamplePoint_lin_d_gt
  obtain ⟨hl, ht, _⟩ := cornerExamplePoint_fields
  unfold deconflictPair
  rw [ht, hl]
  simp only [mkControlPoint]
  have hc1 : ¬ (cornerExamplePoint.lin_d + 0 - 0.1 ≤ 0) := by push_neg; linarith
  have hc2 : ¬ (cornerExamplePoint.lin_d * 1 < 0 * 0) := by push_neg; nlinarith
  have hc3 : ¬ cornerExamplePoint.lin_d * 1 < 0 * 0 ∧ 0 * 0 < cornerExamplePoint.lin_d * 1 :=
    ⟨hc2, by nlinarith⟩
  rw [if_neg hc1]
  simp only [if_pos hc3, if_neg hc2]
  have harith : (0 * 0 ⊔ (cornerExamplePoint.lin_d * 1 -
      ((cornerExamplePoint.lin_d + 0 - 0.1) * 1 + EPSILON))) / 1 = (0.099 : ℝ) := by
    have : cornerExamplePoint.lin_d * 1 - ((cornerExamplePoint.lin_d + 0 - 0.1) * 1 + EPSILON) =
        (0.099 : ℝ) := by
      simp only [EPSILON]
      ring
    rw [this]
    rw [max_eq_right (by norm_num : (0:ℝ) * 0 ≤ 0.099)]
    norm_num
  rw [harith]
  rw [if_pos (by norm_num : (0.099 : ℝ) + 0 - 0.1 ≤ 0)]

/-- Counterexample to C8 as stated: after `_deconflict_lin_d` has run over
the two owners of the example corner's incoming edge (length `0.1`), the
corner keeps `blend_dist = 0.099`, which is larger than half its
`edge_len_in` (`0.05`). -/
theorem deconflict_blend_gt_half_edge_counterexample :
    (cpAt (deconflict_lin_d cornerExampleBuf 1) 1).len / 2 < (cpAt (deconflict_lin_d cornerExampleBuf 1) 1).lin_d := by
  have hred : deconflict_lin_d cornerExampleBuf 1 = deconflictEdge cornerExampleBuf 1 := by
    unfold deconflict_lin_d sortByLen
    rw [show List.range 1 = [0] from rfl]
    simp [deconflict_lin_d, sortByLen, insertByLen]
  have hq0 : cpAt cornerExampleBuf 0 = mkControlPoint 0 0 0 0 0 := rfl
  have hq1 : cpAt cornerExampleBuf 1 = cornerExamplePoint := rfl
  have hde : deconflictEdge cornerExampleBuf 1 =
      (cornerExampleBuf.set 0 (mkControlPoint 0 0 0 0 0)).set 1
        { vec := cornerExamplePoint.vec, f := cornerExamplePoint.f, maxd := cornerExamplePoint.maxd,
          angle := cornerExamplePoint.angle, len := 0.1, lin_d := 0.099, lin_d_to_r := 1 } := by
    simp only [deconflictEdge, hq0, hq1, deconflictPair_cornerExample]
  rw [hred, hde, cpAt_set_self _ 1 _ (by simp [cornerExampleBuf])]
  norm_num

/-! ### C1: the tessellated arc deviates from the vertex by exactly `maxd` -/


lemma dot3_vadd_right (a u w : Vec3) : dot3 a (vadd u w) = dot3 a u + dot3 a w := by
  simp only [dot3, vadd]; ring

lemma dot3_vmul_right (a b : Vec3) (k : ℝ) : dot3 a (vmul b k) = k * dot3 a b := by
  simp only [dot3, vmul]; ring

lemma vdist_eq_sqrt_norm3sq (a b : Vec3) :
    vdist a b = Real.sqrt (norm3sq ⟨a.x - b.x, a.y - b.y, a.z - b.z⟩) := by
  simp only [vdist, hypot3, norm3sq, dot3]
  ring_nf

lemma vdist_on_ray (a w : Vec3) (k1 k2 : ℝ) :
    vdist (vadd a (vmul w k1)) (vadd a (vmul w k2)) = |k1 - k2| * Real.sqrt (norm3sq w) := by
  rw [vdist_eq_sqrt_norm3sq]
  have h : (⟨(vadd a (vmul w k1)).x - (vadd a (vmul w k2)).x,
      (vadd a (vmul w k1)).y - (vadd a (vmul w k2)).y,
      (vadd a (vmul w k1)).z - (vadd a (vmul w k2)).z⟩ : Vec3) = vmul w (k1 - k2) := by
    ext <;> simp only [vadd, vmul] <;> ring
  rw [h, norm3sq_vmul, Real.sqrt_mul (sq_nonneg _), Real.sqrt_sq_eq_abs]

noncomputable def toE (v : Vec3) : EuclideanSpace ℝ (Fin 3) := ![v.x, v.y, v.z]

lemma vdist_eq_dist (a b : Vec3) : vdist a b = dist (toE a) (toE b) := by
  rw [EuclideanSpace.dist_eq]
  simp only [vdist, hypot3, toE]
  congr 1
  rw [Fin.sum_univ_three]
  simp [Real.dist_eq, sq_abs]

lemma vdist_reverse_triangle (a b q : Vec3) : vdist a b - vdist b q ≤ vdist a q := by
  rw [vdist_eq_dist, vdist_eq_dist, vdist_eq_dist]
  have := dist_triangle (toE a) (toE q) (toE b)
  have hc : dist (toE q) (toE b) = dist (toE b) (toE q) := dist_comm _ _
  linarith

lemma vangle_nonneg (v1 v2 : Vec3) : 0 ≤ vangle v1 v2 := by
  unfold vangle atan2
  exact Complex.arg_nonneg_iff.mpr (by exact Real.sqrt_nonneg _)

lemma vangle_le_pi (v1 v2 : Vec3) : vangle v1 v2 ≤ Real.pi := Complex.arg_le_pi _

lemma crossnorm_pos_of_vangle (v1 v2 : Vec3)
    (h1 : EPSILON_ANGLE < vangle v1 v2) (h2 : vangle v1 v2 < Real.pi - EPSILON_ANGLE) :
    0 < normVec (cross v1 v2) := by
  have hEps : (0 : ℝ) < EPSILON_ANGLE := by norm_num [EPSILON_ANGLE]
  have hnn : 0 ≤ normVec (cross v1 v2) := normVec_nonneg _
  rcases eq_or_lt_of_le hnn with heq | hlt
  · exfalso
    have hcr : normVec (cross v1 v2) = 0 := heq.symm
    have him : (⟨v1.x * v2.x + v1.y * v2.y + v1.z * v2.z,
        hypot3 (v1.y * v2.z - v1.z * v2.y) (v1.z * v2.x - v1.x * v2.z)
          (v1.x * v2.y - v1.y * v2.x)⟩ : ℂ).im = 0 := by
      show hypot3 _ _ _ = 0
      exact hcr
    rcases le_or_lt 0 (v1.x * v2.x + v1.y * v2.y + v1.z * v2.z) with hre | hre
    · have : vangle v1 v2 = 0 := by
        unfold vangle atan2
        exact Complex.arg_eq_zero_iff.mpr ⟨hre, him⟩
      rw [this] at h1
      linarith
    · have : vangle v1 v2 = Real.pi := by
        unfold vangle atan2
        exact Complex.arg_eq_pi_iff.mpr ⟨hre, him⟩
      rw [this] at h2
      linarith
  · exact hlt

/-- The chain `rotspoke = _vtransform(...(_vtransform(spoke, rt))...)` after
`k` applications. -/
def iterRot (rt : Mat3) : Nat → Vec3 → Vec3
  | 0, v => v
  | k + 1, v => iterRot rt k (vtransform v rt)

lemma norm3sq_iterRot (angle : ℝ) (a : Vec3) (ha : norm3sq a = 1) :
    ∀ (k : Nat) (v : Vec3),
      norm3sq (iterRot (vrot_transform angle a) k v) = norm3sq v := by
  intro k
  induction k with
  | zero => intro v; rfl
  | succ k ih =>
      intro v
      show norm3sq (iterRot _ k (vtransform v _)) = _
      rw [ih, norm3sq_vtransform v angle a ha]

lemma arcSteps_emitted_mem (c : ControlPoint) (center : Vec3) (rt : Mat3) :
    ∀ (k : Nat) (v : Vec3) (st : EngineState) (e : Emit),
      e ∈ (arcSteps c center rt k v st).emitted →
      e ∈ st.emitted ∨ ∃ i, 1 ≤ i ∧ i ≤ k ∧
        e = Emit.move (vadd center (iterRot rt i v)) (if 0 < c.f then some c.f else none) := by
  intro k
  induction k with
  | zero => intro v st e he; exact Or.inl he
  | succ k ih =>
      intro v st e he
      rcases ih (vtransform v rt) _ e he with hin | ⟨i, hi1, hik, heq⟩
      · simp only [g0p, List.mem_append] at hin
        rcases hin with hin | hone
        · exact Or.inl hin
        · refine Or.inr ⟨1, le_refl 1, by omega, ?_⟩
          simp only [List.mem_singleton] at hone
          rw [hone]
          rfl
      · refine Or.inr ⟨i + 1, by omega, by omega, ?_⟩
        rw [heq]
        rfl

lemma calculate_corner_eq (c v1 v2 : ControlPoint)
    (h : ¬ (|vangle (vecto c v1) (vecto c v2)| < EPSILON_ANGLE ∨
        Real.pi - |vangle (vecto c v1) (vecto c v2)| < EPSILON_ANGLE)) :
    calculate_corner c v1 v2 = { c with
      len := normVec (vecto c v1),
      angle := vangle (vecto c v1) (vecto c v2),
      lin_d := c.maxd * Real.sin (vangle (vecto c v1) (vecto c v2) / 2) /
          (1 - Real.sin (vangle (vecto c v1) (vecto c v2) / 2)) /
        Real.tan (vangle (vecto c v1) (vecto c v2) / 2),
      lin_d_to_r := Real.tan (vangle (vecto c v1) (vecto c v2) / 2) } := by
  simp only [calculate_corner]
  rw [if_neg h]

lemma calculate_corner_vec (c v1 v2 : ControlPoint) :
    (calculate_corner c v1 v2).vec = c.vec := by
  simp only [calculate_corner]
  split_ifs <;> rfl

lemma calculate_corner_maxd (c v1 v2 : ControlPoint) :
    (calculate_corner c v1 v2).maxd = c.maxd := by
  simp only [calculate_corner]
  split_ifs <;> rfl

/-- C1: for a single corner `c` (predecessor `p`, successor `n`) with
`max_deviation d > 0` and turn angle strictly between the epsilon bounds,
the fillet radius solved by `_calculate_corner` is `r = d·sin(θ/2)/(1 -
sin(θ/2))`; the distance from the vertex to the arc center computed by
`_arc` is exactly `r + d`, so every point of the circle of radius `r`
about that center (on which all tessellated chord vertices emitted by
`_arc` lie) is at distance at least `d` from the vertex, with distance
exactly `d` attained on the circle: the maximum perpendicular deviation of
the tessellated arc from the original vertex equals `d`. -/
theorem arc_deviation_eq_maxd (st : EngineState) (c p n : ControlPoint)
    (hd : 0 < c.maxd)
    (h1 : EPSILON_ANGLE < vangle (vecto c p) (vecto c n))
    (h2 : vangle (vecto c p) (vecto c n) < Real.pi - EPSILON_ANGLE) :
    arcRadius (calculate_corner c p n) =
        c.maxd * Real.sin (vangle (vecto c p) (vecto c n) / 2) /
          (1 - Real.sin (vangle (vecto c p) (vecto c n) / 2)) ∧
    vdist c.vec (arcCenter (calculate_corner c p n) p n) =
        arcRadius (calculate_corner c p n) + c.maxd ∧
    (∀ q : Vec3, vdist (arcCenter (calculate_corner c p n) p n) q =
        arcRadius (calculate_corner c p n) → c.maxd ≤ vdist c.vec q) ∧
    (∃ q : Vec3, vdist (arcCenter (calculate_corner c p n) p n) q =
        arcRadius (calculate_corner c p n) ∧ vdist c.vec q = c.maxd) ∧
    (1 ≤ ⌊arcRadius (calculate_corner c p n) * (calculate_corner c p n).angle /
        st.resolution⌋ →
      ∀ e ∈ (arc st (calculate_corner c p n) p n).emitted, e ∈ st.emitted ∨
        ∃ v f2, e = Emit.move v f2 ∧
          vdist (arcCenter (calculate_corner c p n) p n) v =
            arcRadius (calculate_corner c p n)) := by
  have hEps : (0 : ℝ) < EPSILON_ANGLE := by norm_num [EPSILON_ANGLE]
  have hθnn : 0 ≤ vangle (vecto c p) (vecto c n) := vangle_nonneg _ _
  have hguard : ¬ (|vangle (vecto c p) (vecto c n)| < EPSILON_ANGLE ∨
      Real.pi - |vangle (vecto c p) (vecto c n)| < EPSILON_ANGLE) := by
    rw [abs_of_nonneg hθnn]
    push_neg
    exact ⟨by linarith, by linarith⟩
  have hcc := calculate_corner_eq c p n hguard
  set θ := vangle (vecto c p) (vecto c n) with hθ
  have hθpos : 0 < θ := by linarith
  have hθltpi : θ < Real.pi := by linarith
  have hspos : 0 < Real.sin (θ / 2) :=
    Real.sin_pos_of_pos_of_lt_pi (by linarith) (by linarith [Real.pi_pos])
  have hcpos : 0 < Real.cos (θ / 2) :=
    Real.cos_pos_of_mem_Ioo ⟨by linarith [Real.pi_pos], by linarith⟩
  have hsc := Real.sin_sq_add_cos_sq (θ / 2)
  have hslt1 : Real.sin (θ / 2) < 1 := by nlinarith
  have htpos : 0 < Real.tan (θ / 2) := by
    rw [Real.tan_eq_sin_div_cos]; positivity
  have hR : arcRadius (calculate_corner c p n) =
      c.maxd * Real.sin (θ / 2) / (1 - Real.sin (θ / 2)) := by
    unfold arcRadius
    rw [hcc]
    exact div_mul_cancel₀ _ (ne_of_gt htpos)
  have hRpos : 0 < arcRadius (calculate_corner c p n) := by
    rw [hR]
    exact div_pos (mul_pos hd hspos) (by linarith)
  have hlin : (calculate_corner c p n).lin_d =
      arcRadius (calculate_corner c p n) / Real.tan (θ / 2) := by
    rw [hcc]
    unfold arcRadius
    dsimp only
    rw [div_mul_cancel₀ _ (ne_of_gt htpos)]
  -- vector facts
  have hcr : 0 < normVec (cross (vecto c p) (vecto c n)) :=
    crossnorm_pos_of_vangle _ _ h1 h2
  have hcrsq : 0 < norm3sq (cross (vecto c p) (vecto c n)) := by
    rw [← normVec_sq]
    exact pow_pos hcr 2
  have hW1 : 0 < norm3sq (vecto c p) := by
    rcases eq_or_lt_of_le (norm3sq_nonneg (vecto c p)) with h0 | h0
    · exfalso
      have hlag := norm3sq_cross (vecto c p) (vecto c n)
      rw [← h0] at hlag
      nlinarith [sq_nonneg (dot3 (vecto c p) (vecto c n))]
    · exact h0
  have hW2 : 0 < norm3sq (vecto c n) := by
    rcases eq_or_lt_of_le (norm3sq_nonneg (vecto c n)) with h0 | h0
    · exfalso
      have hlag := norm3sq_cross (vecto c p) (vecto c n)
      rw [← h0] at hlag
      nlinarith [sq_nonneg (dot3 (vecto c p) (vecto c n))]
    · exact h0
  have hvecp : vecto (calculate_corner c p n) p = vecto c p := by
    unfold vecto
    rw [calculate_corner_vec]
  have hvecn : vecto (calculate_corner c p n) n = vecto c n := by
    unfold vecto
    rw [calculate_corner_vec]
  have hvp1 : norm3sq (arcVp (calculate_corner c p n) p) = 1 := by
    unfold arcVp
    rw [hvecp]
    exact norm3sq_vnorm _ hW1
  have hvn1 : norm3sq (arcVp (calculate_corner c p n) n) = 1 := by
    unfold arcVp
    rw [hvecn]
    exact norm3sq_vnorm _ hW2
  have hcrossu : 0 < norm3sq (cross (arcVp (calculate_corner c p n) p)
      (arcVp (calculate_corner c p n) n)) := by
    unfold arcVp
    rw [hvecp, hvecn]
    unfold vnorm
    rw [cross_vmul_vmul, norm3sq_vmul]
    have hp1 : 0 < normVec (vecto c p) := normVec_pos _ hW1
    have hp2 : 0 < normVec (vecto c n) := normVec_pos _ hW2
    positivity
  have haxis : norm3sq (arcRotAxis (calculate_corner c p n) p n) = 1 := by
    unfold arcRotAxis
    exact norm3sq_vnorm _ hcrossu
  have haxp : dot3 (arcRotAxis (calculate_corner c p n) p n)
      (arcVp (calculate_corner c p n) p) = 0 := by
    unfold arcRotAxis vnorm
    rw [dot3_vmul_left, dot3_cross_left, mul_zero]
  have hperp : dot3 (arcVp (calculate_corner c p n) p)
      (arcSpoke (calculate_corner c p n) p n) = 0 := by
    unfold arcSpoke
    rw [dot3_vmul_right, vrot_rodrigues, Real.cos_pi_div_two, Real.sin_pi_div_two]
    rw [dot3_vadd_right, dot3_vadd_right, dot3_vmul_right, dot3_vmul_right, dot3_vmul_right]
    rw [dot3_cross_mid, dot3_comm _ (arcRotAxis (calculate_corner c p n) p n), haxp]
    ring
  have hspoke : norm3sq (arcSpoke (calculate_corner c p n) p n) =
      arcRadius (calculate_corner c p n) ^ 2 := by
    unfold arcSpoke
    rw [norm3sq_vmul, norm3sq_vrot _ _ _ haxis, hvp1]
    ring
  have hdiff : (⟨c.vec.x - (arcCenter (calculate_corner c p n) p n).x,
      c.vec.y - (arcCenter (calculate_corner c p n) p n).y,
      c.vec.z - (arcCenter (calculate_corner c p n) p n).z⟩ : Vec3) =
      vadd (vmul (arcVp (calculate_corner c p n) p) (-(calculate_corner c p n).lin_d))
        (arcSpoke (calculate_corner c p n) p n) := by
    have hv := calculate_corner_vec c p n
    ext <;> simp only [arcCenter, arcStart, vadd, vmul, hv] <;> ring
  have hd2 : vdist c.vec (arcCenter (calculate_corner c p n) p n) =
      Real.sqrt ((calculate_corner c p n).lin_d ^ 2 +
        arcRadius (calculate_corner c p n) ^ 2) := by
    rw [vdist_eq_sqrt_norm3sq, hdiff, norm3sq_vadd, norm3sq_vmul, hvp1, hspoke,
      dot3_vmul_left, hperp]
    ring_nf
  have hsum : (calculate_corner c p n).lin_d ^ 2 + arcRadius (calculate_corner c p n) ^ 2 =
      (arcRadius (calculate_corner c p n) / Real.sin (θ / 2)) ^ 2 := by
    rw [hlin, Real.tan_eq_sin_div_cos]
    rw [div_div_eq_mul_div]
    field_simp
    linear_combination (arcRadius (calculate_corner c p n)) ^ 2 * hsc
  have hkey : arcRadius (calculate_corner c p n) * (1 - Real.sin (θ / 2)) =
      c.maxd * Real.sin (θ / 2) := by
    rw [hR, div_mul_cancel₀ _ (ne_of_gt (show (0:ℝ) < 1 - Real.sin (θ / 2) by linarith))]
  have hconj2 : vdist c.vec (arcCenter (calculate_corner c p n) p n) =
      arcRadius (calculate_corner c p n) + c.maxd := by
    rw [hd2, hsum, Real.sqrt_sq (le_of_lt (div_pos hRpos hspos))]
    rw [div_eq_iff (ne_of_gt hspos)]
    linear_combination hkey
  have hconj3 : ∀ q : Vec3, vdist (arcCenter (calculate_corner c p n) p n) q =
      arcRadius (calculate_corner c p n) → c.maxd ≤ vdist c.vec q := by
    intro q hq
    have htri := vdist_reverse_triangle c.vec (arcCenter (calculate_corner c p n) p n) q
    rw [hconj2, hq] at htri
    linarith
  have hconj4 : ∃ q : Vec3, vdist (arcCenter (calculate_corner c p n) p n) q =
      arcRadius (calculate_corner c p n) ∧ vdist c.vec q = c.maxd := by
    set ctr := arcCenter (calculate_corner c p n) p n with hctr
    set R := arcRadius (calculate_corner c p n) with hRR
    set w : Vec3 := ⟨c.vec.x - ctr.x, c.vec.y - ctr.y, c.vec.z - ctr.z⟩ with hwdef
    have hRdpos : 0 < R + c.maxd := by linarith
    have hwnorm : Real.sqrt (norm3sq w) = R + c.maxd := by
      rw [← hconj2, vdist_eq_sqrt_norm3sq]
    have hc0 : ctr = vadd ctr (vmul w 0) := by
      ext <;> simp [vadd, vmul]
    have hc1 : c.vec = vadd ctr (vmul w 1) := by
      ext <;> simp [vadd, vmul, hwdef]
    refine ⟨vadd ctr (vmul w (R / (R + c.maxd))), ?_, ?_⟩
    · nth_rewrite 1 [hc0]
      rw [vdist_on_ray, hwnorm]
      rw [show (0:ℝ) - R / (R + c.maxd) = -(R / (R + c.maxd)) by ring, abs_neg,
        abs_of_nonneg (by positivity)]
      exact div_mul_cancel₀ _ (ne_of_gt hRdpos)
    · nth_rewrite 1 [hc1]
      rw [vdist_on_ray, hwnorm]
      have h1k : 1 - R / (R + c.maxd) = c.maxd / (R + c.maxd) := by
        field_simp
      rw [h1k, abs_of_nonneg (by positivity)]
      exact div_mul_cancel₀ _ (ne_of_gt hRdpos)
  have hcirc : ∀ w2 : Vec3, norm3sq w2 = arcRadius (calculate_corner c p n) ^ 2 →
      vdist (arcCenter (calculate_corner c p n) p n)
        (vadd (arcCenter (calculate_corner c p n) p n) w2) =
        arcRadius (calculate_corner c p n) := by
    intro w2 hw2
    rw [vdist_eq_sqrt_norm3sq]
    have hneg : (⟨(arcCenter (calculate_corner c p n) p n).x -
        (vadd (arcCenter (calculate_corner c p n) p n) w2).x,
        (arcCenter (calculate_corner c p n) p n).y -
        (vadd (arcCenter (calculate_corner c p n) p n) w2).y,
        (arcCenter (calculate_corner c p n) p n).z -
        (vadd (arcCenter (calculate_corner c p n) p n) w2).z⟩ : Vec3) = vmul w2 (-1) := by
      ext <;> simp [vadd, vmul]
    rw [hneg, norm3sq_vmul, hw2]
    rw [show (-1:ℝ)^2 * arcRadius (calculate_corner c p n) ^ 2 =
      arcRadius (calculate_corner c p n) ^ 2 by ring]
    exact Real.sqrt_sq hRpos.le
  have hconj5 : 1 ≤ ⌊arcRadius (calculate_corner c p n) * (calculate_corner c p n).angle /
      st.resolution⌋ →
      ∀ e ∈ (arc st (calculate_corner c p n) p n).emitted, e ∈ st.emitted ∨
        ∃ v f2, e = Emit.move v f2 ∧
          vdist (arcCenter (calculate_corner c p n) p n) v =
            arcRadius (calculate_corner c p n) := by
    intro hseg e he
    simp only [arc] at he
    rw [if_neg (not_lt.mpr hseg)] at he
    rcases arcSteps_emitted_mem _ _ _ _ _ _ _ he with hin | ⟨i, _, _, heq⟩
    · simp only [g0p, List.mem_append, List.mem_singleton] at hin
      rcases hin with hin | rfl
      · exact Or.inl hin
      · exact Or.inr ⟨_, _, rfl, hcirc _ hspoke⟩
    · refine Or.inr ⟨_, _, heq, ?_⟩
      apply hcirc
      rw [norm3sq_iterRot _ _ haxis]
      exact hspoke
  exact ⟨hR, hconj2, hconj3, hconj4, hconj5⟩


lemma rightAngle_vangle :
    vangle (vecto (mkControlPoint 0 0 0 1 0) (mkControlPoint 1 0 0 0 0))
      (vecto (mkControlPoint 0 0 0 1 0) (mkControlPoint 0 1 0 0 0)) = Real.pi / 2 := by
  simp only [vangle, vecto, atan2, mkControlPoint, hypot3]
  apply Complex.arg_eq_pi_div_two_iff.mpr
  constructor
  · norm_num
  · show (0:ℝ) < Real.sqrt _
    apply Real.sqrt_pos.mpr
    norm_num

/-- Witness for C1: a concrete right-angle corner at the origin with
`maxd = 1`; its arc center lies at distance `radius + 1` from the vertex. -/
theorem arc_deviation_eq_maxd_witness :
    ((0:ℝ) < (mkControlPoint 0 0 0 1 0).maxd ∧
      EPSILON_ANGLE < vangle (vecto (mkControlPoint 0 0 0 1 0) (mkControlPoint 1 0 0 0 0))
        (vecto (mkControlPoint 0 0 0 1 0) (mkControlPoint 0 1 0 0 0)) ∧
      vangle (vecto (mkControlPoint 0 0 0 1 0) (mkControlPoint 1 0 0 0 0))
        (vecto (mkControlPoint 0 0 0 1 0) (mkControlPoint 0 1 0 0 0)) <
        Real.pi - EPSILON_ANGLE) ∧
    vdist (mkControlPoint 0 0 0 1 0).vec
        (arcCenter (calculate_corner (mkControlPoint 0 0 0 1 0) (mkControlPoint 1 0 0 0 0)
          (mkControlPoint 0 1 0 0 0)) (mkControlPoint 1 0 0 0 0) (mkControlPoint 0 1 0 0 0)) =
      arcRadius (calculate_corner (mkControlPoint 0 0 0 1 0) (mkControlPoint 1 0 0 0 0)
          (mkControlPoint 0 1 0 0 0)) + (mkControlPoint 0 0 0 1 0).maxd := by
  have hpi := Real.pi_gt_three
  have hmaxd : (0:ℝ) < (mkControlPoint 0 0 0 1 0).maxd := by norm_num [mkControlPoint]
  have h1 : EPSILON_ANGLE < vangle (vecto (mkControlPoint 0 0 0 1 0) (mkControlPoint 1 0 0 0 0))
      (vecto (mkControlPoint 0 0 0 1 0) (mkControlPoint 0 1 0 0 0)) := by
    rw [rightAngle_vangle]
    norm_num [EPSILON_ANGLE]
    linarith
  have h2 : vangle (vecto (mkControlPoint 0 0 0 1 0) (mkControlPoint 1 0 0 0 0))
      (vecto (mkControlPoint 0 0 0 1 0) (mkControlPoint 0 1 0 0 0)) <
      Real.pi - EPSILON_ANGLE := by
    rw [rightAngle_vangle]
    norm_num [EPSILON_ANGLE]
    linarith
  exact ⟨⟨hmaxd, h1, h2⟩,
    (arc_deviation_eq_maxd (EngineState.mk 1 [] ⟨0, 0, 0⟩ []) (mkControlPoint 0 0 0 1 0)
      (mkControlPoint 1 0 0 0 0) (mkControlPoint 0 1 0 0 0) hmaxd h1 h2).2.1⟩

/-! ### Structural lemmas about the engine state -/

lemma arcSteps_buffer (c : ControlPoint) (center : Vec3) (rt : Mat3) :
    ∀ (k : Nat) (v : Vec3) (st : EngineState), (arcSteps c center rt k v st).buffer = st.buffer := by
  intro k
  induction k with
  | zero => intro v st; rfl
  | succ k ih => intro v st; rw [arcSteps, ih]; rfl

lemma arc_buffer (st : EngineState) (c p n : ControlPoint) :
    (arc st c p n).buffer = st.buffer := by
  simp only [arc]
  split_ifs
  · rfl
  · rw [arcSteps_buffer]; rfl

lemma arcsFold_buffer (idx : List Nat) :
    ∀ (st : EngineState),
      (idx.foldl (fun s i => arc s (cpAt s.buffer (i + 1)) (cpAt s.buffer i)
        (cpAt s.buffer (i + 2))) st).buffer = st.buffer := by
  induction idx with
  | nil => intro st; rfl
  | cons i rest ih => intro st; rw [List.foldl_cons, ih, arc_buffer]

lemma length_setHeadVec (l : List ControlPoint) (v : Vec3) :
    (setHeadVec l v).length = l.length := by
  cases l <;> rfl

lemma cpAt_setHeadVec_zero_vec (l : List ControlPoint) (v : Vec3) (h : l ≠ []) :
    (cpAt (setHeadVec l v) 0).vec = v := by
  cases l with
  | nil => exact absurd rfl h
  | cons a t => rfl

lemma cpAt_setHeadVec_succ (l : List ControlPoint) (v : Vec3) (j : Nat) :
    cpAt (setHeadVec l v) (j + 1) = cpAt l (j + 1) := by
  cases l <;> rfl

lemma cpAt_drop : ∀ (l : List ControlPoint) (k j : Nat), cpAt (l.drop k) j = cpAt l (k + j) := by
  intro l
  induction l with
  | nil => intro k j; simp [cpAt, List.getD]
  | cons a t ih =>
      intro k j
      cases k with
      | zero => simp
      | succ k' =>
          show cpAt (t.drop k') j = cpAt (a :: t) (k' + 1 + j)
          rw [ih k' j]
          have : k' + 1 + j = (k' + j) + 1 := by omega
          rw [this]
          rfl

lemma cpAt_append_last (l : List ControlPoint) (x : ControlPoint) :
    cpAt (l ++ [x]) l.length = x := by
  induction l with
  | nil => rfl
  | cons a t ih => exact ih

lemma length_linetoBuf (st : EngineState) (pos : ControlPoint) :
    (linetoBuf st pos).length = st.buffer.length + 1 := by
  simp only [linetoBuf]
  split_ifs <;> simp

lemma length_deconflict_lin_d (buf : List ControlPoint) (num : Nat) :
    (deconflict_lin_d buf num).length = buf.length :=
  foldl_deconflict_length _ buf

lemma foldl_deconflict_preserves (order : List Nat) :
    ∀ (s : List ControlPoint) (j : Nat), (∀ i ∈ order, 1 ≤ i) →
      ((cpAt (order.foldl deconflictEdge s) j).len = (cpAt s j).len ∧
       (cpAt (order.foldl deconflictEdge s) j).lin_d_to_r = (cpAt s j).lin_d_to_r ∧
       (cpAt (order.foldl deconflictEdge s) j).vec = (cpAt s j).vec ∧
       (cpAt (order.foldl deconflictEdge s) j).f = (cpAt s j).f) := by
  induction order with
  | nil => intro s j _; exact ⟨rfl, rfl, rfl, rfl⟩
  | cons i rest ih =>
      intro s j hall
      have h1 := hall i (List.mem_cons_self i rest)
      have hrec := ih (deconflictEdge s i) j (fun x hx => hall x (List.mem_cons_of_mem i hx))
      have hstep := deconflictEdge_preserves s i h1 j
      rw [List.foldl_cons]
      exact ⟨hrec.1.trans hstep.1, hrec.2.1.trans hstep.2.1, hrec.2.2.1.trans hstep.2.2.1,
        hrec.2.2.2.trans hstep.2.2.2⟩

lemma deconflictEdge_untouched (buf : List ControlPoint) (i j : Nat)
    (h1 : j ≠ i - 1) (h2 : j ≠ i) :
    cpAt (deconflictEdge buf i) j = cpAt buf j := by
  simp only [deconflictEdge]
  rw [cpAt_set_ne _ i j _ (fun h => h2 h.symm), cpAt_set_ne _ (i - 1) j _ (fun h => h1 h.symm)]

lemma foldl_deconflict_untouched (order : List Nat) :
    ∀ (s : List ControlPoint) (j : Nat), (∀ i ∈ order, i ≠ j ∧ i - 1 ≠ j) →
      cpAt (order.foldl deconflictEdge s) j = cpAt s j := by
  induction order with
  | nil => intro s j _; rfl
  | cons i rest ih =>
      intro s j hall
      have h1 := hall i (List.mem_cons_self i rest)
      rw [List.foldl_cons, ih _ j (fun x hx => hall x (List.mem_cons_of_mem i hx)),
        deconflictEdge_untouched s i j (fun h => h1.2 h.symm) (fun h => h1.1 h.symm)]

lemma deconflict_lin_d_preserves (buf : List ControlPoint) (num : Nat) (j : Nat) :
    (cpAt (deconflict_lin_d buf num) j).len = (cpAt buf j).len ∧
    (cpAt (deconflict_lin_d buf num) j).lin_d_to_r = (cpAt buf j).lin_d_to_r ∧
    (cpAt (deconflict_lin_d buf num) j).vec = (cpAt buf j).vec ∧
    (cpAt (deconflict_lin_d buf num) j).f = (cpAt buf j).f := by
  apply foldl_deconflict_preserves
  intro x hx
  rw [mem_sortByLen, mem_edge_indices] at hx
  exact hx.1

lemma deconflict_lin_d_untouched (buf : List ControlPoint) (num : Nat) (j : Nat)
    (h : num < j) : cpAt (deconflict_lin_d buf num) j = cpAt buf j := by
  apply foldl_deconflict_untouched
  intro x hx
  rw [mem_sortByLen, mem_edge_indices] at hx
  omega

lemma flush_buffer_third (st : EngineState) (num : ℤ) (h0 : 0 < num)
    (h3 : 3 ≤ st.buffer.length) :
    (flush_buffer st num).buffer =
      setHeadVec ((deconflict_lin_d st.buffer (num.toNat + 1)).drop num.toNat)
        ((flush_buffer st num).lastg0) ∧
    (flush_buffer st num).buffer.length = st.buffer.length - num.toNat := by
  have hc1 : ¬ num ≤ 0 := by omega
  have hc2 : ¬ st.buffer.length < 2 := by omega
  have hc3 : ¬ st.buffer.length = 2 := by omega
  simp only [flush_buffer, if_neg hc1, if_neg hc2, if_neg hc3]
  rw [arcsFold_buffer]
  refine ⟨rfl, ?_⟩
  rw [length_setHeadVec, List.length_drop, length_deconflict_lin_d]

lemma arcSteps_emitted_append (c : ControlPoint) (center : Vec3) (rt : Mat3) :
    ∀ (k : Nat) (v : Vec3) (st : EngineState),
      ∃ l : List Emit, (arcSteps c center rt k v st).emitted = st.emitted ++ l := by
  intro k
  induction k with
  | zero => intro v st; exact ⟨[], by simp [arcSteps]⟩
  | succ k ih =>
      intro v st
      obtain ⟨l, hl⟩ := ih (vtransform v rt) (g0p st c (vadd center (vtransform v rt)))
      rw [arcSteps, hl]
      exact ⟨Emit.move (vadd center (vtransform v rt))
        (if 0 < c.f then some c.f else none) :: l, by simp [g0p]⟩

lemma arc_emitted_append (st : EngineState) (c p n : ControlPoint) :
    ∃ l : List Emit, (arc st c p n).emitted = st.emitted ++ l := by
  simp only [arc]
  split_ifs
  · exact ⟨[Emit.move c.vec (if 0 < c.f then some c.f else none)], by simp [g0, g0p]⟩
  · obtain ⟨l, hl⟩ := arcSteps_emitted_append c
      (arcCenter c p n) _ _ (arcSpoke c p n) (g0p st c (vadd (arcCenter c p n) (arcSpoke c p n)))
    rw [hl]
    exact ⟨Emit.move (vadd (arcCenter c p n) (arcSpoke c p n))
      (if 0 < c.f then some c.f else none) :: l, by simp [g0p]⟩

lemma arcsFold_emitted_append (idx : List Nat) :
    ∀ (st : EngineState), ∃ l : List Emit,
      (idx.foldl (fun s i => arc s (cpAt s.buffer (i + 1)) (cpAt s.buffer i)
        (cpAt s.buffer (i + 2))) st).emitted = st.emitted ++ l := by
  induction idx with
  | nil => intro st; exact ⟨[], by simp⟩
  | cons i rest ih =>
      intro st
      obtain ⟨l1, hl1⟩ := arc_emitted_append st (cpAt st.buffer (i + 1)) (cpAt st.buffer i)
        (cpAt st.buffer (i + 2))
      obtain ⟨l2, hl2⟩ := ih (arc st (cpAt st.buffer (i + 1)) (cpAt st.buffer i)
        (cpAt st.buffer (i + 2)))
      rw [List.foldl_cons, hl2, hl1]
      exact ⟨l1 ++ l2, by simp⟩

lemma flush_buffer_emitted_append (st : EngineState) (num : ℤ) :
    ∃ l : List Emit, (flush_buffer st num).emitted = st.emitted ++ l := by
  simp only [flush_buffer]
  split_ifs
  · exact ⟨[], by simp⟩
  · exact ⟨[], by simp⟩
  · exact ⟨[Emit.move (cpAt st.buffer (st.buffer.length - 1)).vec
      (if 0 < (cpAt st.buffer (st.buffer.length - 1)).f then
        some (cpAt st.buffer (st.buffer.length - 1)).f else none)], by simp [g0, g0p]⟩
  · obtain ⟨l, hl⟩ := arcsFold_emitted_append (List.range num.toNat)
      { st with buffer := deconflict_lin_d st.buffer (num.toNat + 1) }
    rw [hl]
    exact ⟨l, rfl⟩

lemma calculate_zero_corner_vec (c vp : ControlPoint) :
    (calculate_zero_corner c vp).vec = c.vec ∧ (calculate_zero_corner c vp).f = c.f :=
  ⟨rfl, rfl⟩

/-! ### C4: the streaming retirement -/

lemma lineto_retirement_core (st : EngineState) (pos : ControlPoint)
    (hd : 0 < pos.maxd)
    (hlen : 3 ≤ st.buffer.length)
    (htrig : (cpAt (linetoBuf st pos) ((linetoBuf st pos).length - 3)).lin_d +
        (cpAt (linetoBuf st pos) ((linetoBuf st pos).length - 2)).lin_d ≤
      (cpAt (linetoBuf st pos) ((linetoBuf st pos).length - 2)).len) :
    lineto st pos = flush_buffer { st with buffer := linetoBuf st pos }
        (((linetoBuf st pos).length : ℤ) - 3) ∧
    (lineto st pos).buffer.length = 3 ∧
    (cpAt (lineto st pos).buffer 0).vec = (lineto st pos).lastg0 ∧
    (cpAt (lineto st pos).buffer 1).vec =
      (cpAt (linetoBuf st pos) ((linetoBuf st pos).length - 2)).vec ∧
    cpAt (lineto st pos).buffer 2 = cpAt (linetoBuf st pos) ((linetoBuf st pos).length - 1) := by
  have hB : (linetoBuf st pos).length = st.buffer.length + 1 := length_linetoBuf st pos
  have hB4 : 4 ≤ (linetoBuf st pos).length := by omega
  have hcond1 : ¬ (2 ≤ (linetoBuf st pos).length ∧ pos.maxd ≤ 0) := by
    intro h
    linarith [h.2]
  have hstep : lineto st pos = flush_buffer { st with buffer := linetoBuf st pos }
      (((linetoBuf st pos).length : ℤ) - 3) := by
    simp only [lineto]
    rw [if_neg hcond1, if_pos ⟨hB4, htrig⟩]
  have hnum : (0:ℤ) < ((linetoBuf st pos).length : ℤ) - 3 := by omega
  have hlen3 : 3 ≤ ({ st with buffer := linetoBuf st pos } : EngineState).buffer.length := by
    show 3 ≤ (linetoBuf st pos).length
    omega
  have hflush := flush_buffer_third { st with buffer := linetoBuf st pos }
    (((linetoBuf st pos).length : ℤ) - 3) hnum hlen3
  have htn : (((linetoBuf st pos).length : ℤ) - 3).toNat = (linetoBuf st pos).length - 3 := by
    omega
  rw [htn] at hflush
  have hdlen : ((deconflict_lin_d (linetoBuf st pos) ((linetoBuf st pos).length - 3 + 1)).drop
      ((linetoBuf st pos).length - 3)).length = 3 := by
    rw [List.length_drop, length_deconflict_lin_d]
    omega
  have hne : (deconflict_lin_d (linetoBuf st pos) ((linetoBuf st pos).length - 3 + 1)).drop
      ((linetoBuf st pos).length - 3) ≠ [] := by
    intro h
    rw [h] at hdlen
    simp at hdlen
  refine ⟨hstep, ?_, ?_, ?_, ?_⟩
  · rw [hstep, hflush.2]
    show ((linetoBuf st pos)).length - _ = 3
    omega
  · rw [hstep, hflush.1, cpAt_setHeadVec_zero_vec _ _ hne]
  · rw [hstep, hflush.1]
    rw [show (1 : Nat) = 0 + 1 from rfl, cpAt_setHeadVec_succ, cpAt_drop]
    have h1 : (linetoBuf st pos).length - 3 + (0 + 1) = (linetoBuf st pos).length - 2 := by omega
    rw [h1]
    exact (deconflict_lin_d_preserves _ _ _).2.2.1
  · rw [hstep, hflush.1]
    rw [show (2 : Nat) = 1 + 1 from rfl, cpAt_setHeadVec_succ, cpAt_drop]
    have h2 : (linetoBuf st pos).length - 3 + (1 + 1) = (linetoBuf st pos).length - 1 := by omega
    rw [h2]
    exact deconflict_lin_d_untouched _ _ _ (by omega)

/-- A concrete pre-state: three collinear buffered points on the x axis. -/
noncomputable def streamStateW : EngineState :=
  ⟨1, [mkControlPoint 0 0 0 1 0, mkControlPoint 1 0 0 1 0, mkControlPoint 2 0 0 1 0],
    ⟨0, 0, 0⟩, []⟩

noncomputable def streamPosW : ControlPoint := mkControlPoint 3 0 0 1 0

lemma collinear_corner :
    calculate_corner (mkControlPoint 2 0 0 1 0) (mkControlPoint 1 0 0 1 0)
      (mkControlPoint 3 0 0 1 0) =
      { mkControlPoint 2 0 0 1 0 with len := 1, angle := Real.pi } := by
  have hangle : vangle (vecto (mkControlPoint 2 0 0 1 0) (mkControlPoint 1 0 0 1 0))
      (vecto (mkControlPoint 2 0 0 1 0) (mkControlPoint 3 0 0 1 0)) = Real.pi := by
    simp only [vangle, vecto, atan2, mkControlPoint, hypot3]
    apply Complex.arg_eq_pi_iff.mpr
    constructor
    · show ((1:ℝ) - 2) * (3 - 2) + (0 - 0) * (0 - 0) + (0 - 0) * (0 - 0) < 0
      norm_num
    · show Real.sqrt ((((0:ℝ) - 0) * (0 - 0) - (0 - 0) * (0 - 0)) ^ 2 +
        ((0 - 0) * (3 - 2) - (1 - 2) * (0 - 0)) ^ 2 +
        ((1 - 2) * (0 - 0) - (0 - 0) * (3 - 2)) ^ 2) = 0
      rw [show ((((0:ℝ) - 0) * (0 - 0) - (0 - 0) * (0 - 0)) ^ 2 +
        ((0 - 0) * (3 - 2) - (1 - 2) * (0 - 0)) ^ 2 +
        ((1 - 2) * (0 - 0) - (0 - 0) * (3 - 2)) ^ 2) = 0 by norm_num, Real.sqrt_zero]
  have hlen : normVec (vecto (mkControlPoint 2 0 0 1 0) (mkControlPoint 1 0 0 1 0)) = 1 := by
    simp only [normVec, vecto, mkControlPoint, hypot3]
    rw [show (((1:ℝ) - 2) ^ 2 + (0 - 0) ^ 2 + (0 - 0) ^ 2) = 1 by norm_num, Real.sqrt_one]
  have hguard : (|Real.pi| < EPSILON_ANGLE ∨ Real.pi - |Real.pi| < EPSILON_ANGLE) := by
    right
    rw [abs_of_pos Real.pi_pos]
    norm_num [EPSILON_ANGLE]
  simp only [calculate_corner]
  rw [hangle, hlen]
  rw [if_pos hguard]

lemma streamBufW :
    linetoBuf streamStateW streamPosW =
      [mkControlPoint 0 0 0 1 0, mkControlPoint 1 0 0 1 0,
        { mkControlPoint 2 0 0 1 0 with len := 1, angle := Real.pi }, mkControlPoint 3 0 0 1 0] := by
  simp only [linetoBuf, streamStateW, streamPosW]
  norm_num [cpAt, List.getD]
  rw [collinear_corner]

/-- Counterexample to C4 as stated: on a concrete collinear four-point run
the trigger fires, yet the compacted buffer holds three points, not
"exactly those last two points". -/
theorem retirement_buffer_counterexample :
    0 < streamPosW.maxd ∧
    4 ≤ (linetoBuf streamStateW streamPosW).length ∧
    (cpAt (linetoBuf streamStateW streamPosW)
        ((linetoBuf streamStateW streamPosW).length - 3)).lin_d +
      (cpAt (linetoBuf streamStateW streamPosW)
        ((linetoBuf streamStateW streamPosW).length - 2)).lin_d ≤
      (cpAt (linetoBuf streamStateW streamPosW)
        ((linetoBuf streamStateW streamPosW).length - 2)).len ∧
    (lineto streamStateW streamPosW).buffer.length = 3 ∧
    ¬ (lineto streamStateW streamPosW).buffer.length = 2 := by
  have hd : 0 < streamPosW.maxd := by norm_num [streamPosW, mkControlPoint]
  have hlen : 3 ≤ streamStateW.buffer.length := by norm_num [streamStateW]
  have htrig : (cpAt (linetoBuf streamStateW streamPosW)
        ((linetoBuf streamStateW streamPosW).length - 3)).lin_d +
      (cpAt (linetoBuf streamStateW streamPosW)
        ((linetoBuf streamStateW streamPosW).length - 2)).lin_d ≤
      (cpAt (linetoBuf streamStateW streamPosW)
        ((linetoBuf streamStateW streamPosW).length - 2)).len := by
    rw [streamBufW]
    norm_num [cpAt, List.getD, mkControlPoint]
  have hcore := lineto_retirement_core streamStateW streamPosW hd hlen htrig
  exact ⟨hd, by rw [streamBufW]; norm_num, htrig, hcore.2.1, by rw [hcore.2.1]; norm_num⟩

/-- C4 (amended): when a streaming retirement triggers — a point with
`max_deviation > 0` is appended, at least 4 points are buffered, and
`blend_dist[n-3] + blend_dist[n-2] ≤ edge_len[n-2]` — `_lineto` finalizes
through `_flush_buffer` all corners up to but not including the last two
points, and afterwards the buffer holds exactly THREE points: the last two
input points (the last one untouched, the second-to-last with its position
intact) preceded by a retained continuation point whose position is
re-seeded to the last emitted tessellation vertex. -/
theorem lineto_streaming_retirement (st : EngineState) (pos : ControlPoint)
    (hd : 0 < pos.maxd)
    (hlen : 3 ≤ st.buffer.length)
    (htrig : (cpAt (linetoBuf st pos) ((linetoBuf st pos).length - 3)).lin_d +
        (cpAt (linetoBuf st pos) ((linetoBuf st pos).length - 2)).lin_d ≤
      (cpAt (linetoBuf st pos) ((linetoBuf st pos).length - 2)).len) :
    lineto st pos = flush_buffer { st with buffer := linetoBuf st pos }
        (((linetoBuf st pos).length : ℤ) - 3) ∧
    (lineto st pos).buffer.length = 3 ∧
    (cpAt (lineto st pos).buffer 0).vec = (lineto st pos).lastg0 ∧
    (cpAt (lineto st pos).buffer 1).vec =
      (cpAt (linetoBuf st pos) ((linetoBuf st pos).length - 2)).vec ∧
    cpAt (lineto st pos).buffer 2 = cpAt (linetoBuf st pos) ((linetoBuf st pos).length - 1) :=
  lineto_retirement_core st pos hd hlen htrig

/-- Witness for the amended C4: a concrete collinear four-point run whose
retirement leaves a three-point buffer. -/
theorem lineto_streaming_retirement_witness :
    (0 < streamPosW.maxd ∧ 3 ≤ streamStateW.buffer.length ∧
      (cpAt (linetoBuf streamStateW streamPosW)
          ((linetoBuf streamStateW streamPosW).length - 3)).lin_d +
        (cpAt (linetoBuf streamStateW streamPosW)
          ((linetoBuf streamStateW streamPosW).length - 2)).lin_d ≤
        (cpAt (linetoBuf streamStateW streamPosW)
          ((linetoBuf streamStateW streamPosW).length - 2)).len) ∧
    (lineto streamStateW streamPosW).buffer.length = 3 := by
  have hd : 0 < streamPosW.maxd := by norm_num [streamPosW, mkControlPoint]
  have hlen : 3 ≤ streamStateW.buffer.length := by norm_num [streamStateW]
  have htrig : (cpAt (linetoBuf streamStateW streamPosW)
        ((linetoBuf streamStateW streamPosW).length - 3)).lin_d +
      (cpAt (linetoBuf streamStateW streamPosW)
        ((linetoBuf streamStateW streamPosW).length - 2)).lin_d ≤
      (cpAt (linetoBuf streamStateW streamPosW)
        ((linetoBuf streamStateW streamPosW).length - 2)).len := by
    rw [streamBufW]
    norm_num [cpAt, List.getD, mkControlPoint]
  exact ⟨⟨hd, hlen, htrig⟩,
    (lineto_streaming_retirement streamStateW streamPosW hd hlen htrig).2.1⟩

/-! ### C6, C7, C9: command-level behaviour -/

lemma lineto_zero_path (st : EngineState) (pos : ControlPoint)
    (hd : pos.maxd ≤ 0) (hlen : 1 ≤ st.buffer.length) :
    (lineto st pos).buffer = [] ∧
    ∃ pre : List Emit, (lineto st pos).emitted = st.emitted ++ pre ++
      [Emit.move pos.vec (if 0 < pos.f then some pos.f else none)] := by
  have hB : (linetoBuf st pos).length = st.buffer.length + 1 := length_linetoBuf st pos
  have hB2 : 2 ≤ (linetoBuf st pos).length := by omega
  have hcond : 2 ≤ (linetoBuf st pos).length ∧ pos.maxd ≤ 0 := ⟨hB2, hd⟩
  have hposB : cpAt (linetoBuf st pos) ((linetoBuf st pos).length - 1) = pos := by
    simp only [linetoBuf]
    split_ifs with h3
    · rw [List.length_set, List.length_append, List.length_singleton]
      rw [cpAt_set_ne _ _ _ _ (by simp; omega)]
      have : st.buffer.length + 1 - 1 = st.buffer.length := by omega
      rw [this, cpAt_append_last]
    · rw [List.length_append, List.length_singleton]
      have : st.buffer.length + 1 - 1 = st.buffer.length := by omega
      rw [this, cpAt_append_last]
  set B := linetoBuf st pos with hBdef
  set buf2 := B.set (B.length - 1)
    (calculate_zero_corner (cpAt B (B.length - 1)) (cpAt B (B.length - 2))) with hbuf2
  have hlen2 : buf2.length = B.length := by rw [hbuf2, List.length_set]
  have hzc : cpAt buf2 (B.length - 1) = calculate_zero_corner pos (cpAt B (B.length - 2)) := by
    rw [hbuf2, cpAt_set_self _ _ _ (by omega), hposB]
  have hstep : lineto st pos =
      { g0 (flush_buffer { st with buffer := buf2 } ((buf2.length : ℤ) - 2))
          (cpAt (flush_buffer { st with buffer := buf2 } ((buf2.length : ℤ) - 2)).buffer
            ((flush_buffer { st with buffer := buf2 }
              ((buf2.length : ℤ) - 2)).buffer.length - 1)) with buffer := [] } := by
    simp only [lineto]
    rw [if_pos hcond]
  rcases eq_or_lt_of_le hB2 with h2 | h3
  · -- exactly two points: flush is a no-op (num = 0), then emit pos, clear
    have hnum0 : ((buf2.length : ℤ) - 2) ≤ 0 := by omega
    have hflush : flush_buffer { st with buffer := buf2 } ((buf2.length : ℤ) - 2) =
        { st with buffer := buf2 } := by
      simp only [flush_buffer]
      rw [if_pos hnum0]
    rw [hstep, hflush]
    constructor
    · rfl
    · refine ⟨[], ?_⟩
      show ({ st with buffer := buf2 } : EngineState).emitted ++ _ = _
      have hlast : cpAt buf2 (buf2.length - 1) = calculate_zero_corner pos
          (cpAt B (B.length - 2)) := by
        rw [hlen2, ← h2]
        rw [← h2] at hzc
        exact hzc
      rw [hlen2, ← h2] at *
      simp only [g0, g0p, hlast]
      simp [calculate_zero_corner]
  · -- at least three points: third flush branch keeps the last two
    have hnum : (0:ℤ) < (buf2.length : ℤ) - 2 := by omega
    have h3len : 3 ≤ ({ st with buffer := buf2 } : EngineState).buffer.length := by
      show 3 ≤ buf2.length
      omega
    have hflush := flush_buffer_third { st with buffer := buf2 }
      ((buf2.length : ℤ) - 2) hnum h3len
    obtain ⟨pre0, hpre0⟩ := flush_buffer_emitted_append { st with buffer := buf2 }
      ((buf2.length : ℤ) - 2)
    have htn : (((buf2.length : ℤ)) - 2).toNat = buf2.length - 2 := by omega
    rw [htn] at hflush
    set stf := flush_buffer { st with buffer := buf2 } ((buf2.length : ℤ) - 2) with hstf
    have hflen : stf.buffer.length = 2 := by
      rw [hflush.2]
      show buf2.length - _ = 2
      omega
    have hlast : cpAt stf.buffer 1 = cpAt (deconflict_lin_d buf2 (buf2.length - 2 + 1))
        (buf2.length - 2 + 1) := by
      rw [hflush.1]
      rw [show (1 : Nat) = 0 + 1 from rfl, cpAt_setHeadVec_succ, cpAt_drop]
    have hvecf : (cpAt stf.buffer 1).vec = pos.vec ∧ (cpAt stf.buffer 1).f = pos.f := by
      rw [hlast]
      have hidx : buf2.length - 2 + 1 = B.length - 1 := by omega
      rw [hidx]
      have hp := deconflict_lin_d_preserves buf2 (B.length - 1) (B.length - 1)
      rw [hp.2.2.1, hp.2.2.2, hzc]
      exact ⟨rfl, rfl⟩
    rw [hstep]
    constructor
    · rfl
    · refine ⟨pre0, ?_⟩
      show (g0 stf (cpAt stf.buffer (stf.buffer.length - 1))).emitted = _
      rw [hflen]
      simp only [g0, g0p]
      rw [hpre0, hvecf.1, hvecf.2]

/-- C6: a zero-deviation submission (`D ≤ 0`) that does not raise leaves
the buffer empty: from an empty buffer the move is forwarded directly
(`real_G0`) and the buffer stays empty; with at least two buffered points
everything up through the second-to-last point is finalized and emitted,
then the zero-deviation point itself is emitted directly, and the buffer
is cleared. -/
theorem zero_deviation_flush (st : EngineState) (a : GArgs) (st2 : EngineState)
    (hP : st.buffer.length = 0 ∨ 2 ≤ st.buffer.length)
    (hd : a.d ≤ 0)
    (hok : cmd_ROUNDED_G0 st a = Except.ok st2) :
    st2.buffer = [] ∧
    (st.buffer.length = 0 → st2 = emitRaw st) ∧
    (2 ≤ st.buffer.length → ∃ pre : List Emit,
      st2.emitted = st.emitted ++ pre ++
        [Emit.move (mkPoint a (cpAt st.buffer (st.buffer.length - 1)).vec).vec
          (if 0 < (mkPoint a (cpAt st.buffer (st.buffer.length - 1)).vec).f then
            some (mkPoint a (cpAt st.buffer (st.buffer.length - 1)).vec).f else none)]) := by
  rcases hP with h0 | h2
  · have hcond : a.d ≤ 0 ∧ st.buffer.length < 2 := ⟨hd, by omega⟩
    simp only [cmd_ROUNDED_G0, if_pos hcond] at hok
    have hst2 : st2 = emitRaw st := by
      cases hok
      rfl
    refine ⟨?_, fun _ => hst2, fun hc => by omega⟩
    rw [hst2]
    show st.buffer = []
    exact List.length_eq_zero.mp h0
  · have hcond : ¬ (a.d ≤ 0 ∧ st.buffer.length < 2) := by
      intro h
      omega
    simp only [cmd_ROUNDED_G0, if_neg hcond] at hok
    by_cases habs : a.absolute
    · rw [if_neg (by simpa using habs)] at hok
      rw [if_neg (by omega : ¬ st.buffer.length = 0)] at hok
      by_cases hdrift : EPSILON < vdist a.currentPos (cpAt st.buffer 0).vec
      · rw [if_pos hdrift] at hok
        cases hok
      · rw [if_neg hdrift] at hok
        have hst2 : st2 = lineto st (mkPoint a (cpAt st.buffer (st.buffer.length - 1)).vec) := by
          cases hok
          rfl
        have hz := lineto_zero_path st (mkPoint a (cpAt st.buffer (st.buffer.length - 1)).vec)
          (by show a.d ≤ 0; exact hd) (by omega)
        refine ⟨by rw [hst2]; exact hz.1, fun hc => by omega, fun _ => ?_⟩
        obtain ⟨pre, hpre⟩ := hz.2
        rw [hst2]
        exact ⟨pre, hpre⟩
    · rw [if_pos (by simpa using habs)] at hok
      cases hok

lemma lineto_length_cases (st : EngineState) (pos : ControlPoint) :
    (lineto st pos).buffer.length = 0 ∨ (lineto st pos).buffer.length = 3 ∨
    (lineto st pos).buffer = linetoBuf st pos := by
  simp only [lineto]
  split_ifs with h1 h2
  · left; rfl
  · right; left
    have hnum : (0:ℤ) < ((linetoBuf st pos).length : ℤ) - 3 := by
      have := h2.1
      omega
    have h3 : 3 ≤ ({ st with buffer := linetoBuf st pos } : EngineState).buffer.length := by
      show 3 ≤ (linetoBuf st pos).length
      have := h2.1
      omega
    have hf := flush_buffer_third { st with buffer := linetoBuf st pos } _ hnum h3
    rw [hf.2]
    show (linetoBuf st pos).length - _ = 3
    have := h2.1
    omega
  · right; right; rfl

/-- C9: the observable buffer-length invariant is preserved by every
non-raising invocation of `ROUNDED_G0`: starting from a buffer of length 0
or ≥ 2 (the initial state is empty), the buffer afterwards again has
length 0 or ≥ 2 — a singleton buffer is never observable between commands
(the empty buffer is seeded with anchor + new point together, a
terminating flush clears fully, and a streaming retirement keeps three
points). -/
theorem cmd_buffer_length_invariant (st : EngineState) (a : GArgs) (st2 : EngineState)
    (hP : st.buffer.length = 0 ∨ 2 ≤ st.buffer.length)
    (hok : cmd_ROUNDED_G0 st a = Except.ok st2) :
    st2.buffer.length = 0 ∨ 2 ≤ st2.buffer.length := by
  by_cases hcond : a.d ≤ 0 ∧ st.buffer.length < 2
  · simp only [cmd_ROUNDED_G0, if_pos hcond] at hok
    cases hok
    exact hP
  · simp only [cmd_ROUNDED_G0, if_neg hcond] at hok
    by_cases habs : a.absolute
    · rw [if_neg (by simpa using habs)] at hok
      by_cases h0 : st.buffer.length = 0
      · rw [if_pos h0] at hok
        cases hok
        rcases lineto_length_cases { st with
            buffer := [mkControlPoint a.currentPos.x a.currentPos.y a.currentPos.z 0 0] }
            (mkPoint a a.currentPos) with h | h | h
        · left; exact h
        · right; omega
        · right
          rw [h, length_linetoBuf]
          norm_num
      · rw [if_neg h0] at hok
        by_cases hdrift : EPSILON < vdist a.currentPos (cpAt st.buffer 0).vec
        · rw [if_pos hdrift] at hok
          cases hok
        · rw [if_neg hdrift] at hok
          cases hok
          rcases lineto_length_cases st
              (mkPoint a (cpAt st.buffer (st.buffer.length - 1)).vec) with h | h | h
          · left; exact h
          · right; omega
          · right
            rw [h, length_linetoBuf]
            omega
    · rw [if_pos (by simpa using habs)] at hok
      cases hok

/-- C7 (amended): for every invocation that does not take the direct
pass-through path (that is, `D > 0` or at least two points are buffered),
relative coordinate mode raises `UnsupportedMode`, and a non-empty buffer
whose anchor is farther than `EPSILON` from the reported position raises
`PositionDrift`; both raises happen before any mutation or emission. -/
theorem cmd_error_conditions (st : EngineState) (a : GArgs)
    (h : 0 < a.d ∨ 2 ≤ st.buffer.length) :
    (a.absolute = false →
      cmd_ROUNDED_G0 st a = Except.error RErr.unsupportedMode) ∧
    (st.buffer.length ≠ 0 → EPSILON < vdist a.currentPos (cpAt st.buffer 0).vec →
      a.absolute = true →
      cmd_ROUNDED_G0 st a = Except.error RErr.positionDrift) := by
  have hcond : ¬ (a.d ≤ 0 ∧ st.buffer.length < 2) := by
    intro hc
    rcases h with h | h
    · linarith [hc.1]
    · omega
  constructor
  · intro habs
    simp only [cmd_ROUNDED_G0, if_neg hcond]
    rw [if_pos (by simp [habs])]
  · intro hne hdr habs
    simp only [cmd_ROUNDED_G0, if_neg hcond]
    rw [if_neg (by simp [habs]), if_neg hne, if_pos hdr]

/-- A freshly constructed engine: empty buffer. -/
noncomputable def emptyStateW : EngineState := ⟨1, [], ⟨0, 0, 0⟩, []⟩

noncomputable def relArgsW : GArgs := ⟨none, none, none, none, 0, false, ⟨0, 0, 0⟩⟩

/-- Counterexample to C7 as stated: with `D = 0` (the default) and an
empty buffer, an invocation in relative mode does NOT raise — the command
is forwarded directly to the move primitive. -/
theorem relative_mode_passthrough_counterexample :
    relArgsW.absolute = false ∧
    cmd_ROUNDED_G0 emptyStateW relArgsW = Except.ok (emitRaw emptyStateW) := by
  refine ⟨rfl, ?_⟩
  simp only [cmd_ROUNDED_G0]
  rw [if_pos ⟨by norm_num [relArgsW], by norm_num [emptyStateW]⟩]

noncomputable def relArgsW2 : GArgs := ⟨none, none, none, none, 1, false, ⟨0, 0, 0⟩⟩

/-- Witness for the amended C7: a relative-mode invocation with `D = 1`
raises `UnsupportedMode`. -/
theorem cmd_error_conditions_witness :
    (0 < relArgsW2.d ∨ 2 ≤ emptyStateW.buffer.length) ∧
    cmd_ROUNDED_G0 emptyStateW relArgsW2 = Except.error RErr.unsupportedMode := by
  have h : 0 < relArgsW2.d ∨ 2 ≤ emptyStateW.buffer.length := Or.inl (by norm_num [relArgsW2])
  exact ⟨h, (cmd_error_conditions emptyStateW relArgsW2 h).1 rfl⟩

noncomputable def zeroArgsW : GArgs := ⟨none, none, none, none, 0, true, ⟨0, 0, 0⟩⟩

/-- Witness for C6 at the empty buffer. -/
theorem zero_deviation_flush_witness :
    (emptyStateW.buffer.length = 0 ∨ 2 ≤ emptyStateW.buffer.length) ∧ zeroArgsW.d ≤ 0 ∧
    (emitRaw emptyStateW).buffer = [] := by
  have hok : cmd_ROUNDED_G0 emptyStateW zeroArgsW = Except.ok (emitRaw emptyStateW) := by
    simp only [cmd_ROUNDED_G0]
    rw [if_pos ⟨by norm_num [zeroArgsW], by norm_num [emptyStateW]⟩]
  exact ⟨Or.inl rfl, by norm_num [zeroArgsW],
    (zero_deviation_flush emptyStateW zeroArgsW (emitRaw emptyStateW) (Or.inl rfl)
      (by norm_num [zeroArgsW]) hok).1⟩

/-- Witness for C9 at the empty buffer. -/
theorem cmd_buffer_length_invariant_witness :
    (emptyStateW.buffer.length = 0 ∨ 2 ≤ emptyStateW.buffer.length) ∧
    ((emitRaw emptyStateW).buffer.length = 0 ∨ 2 ≤ (emitRaw emptyStateW).buffer.length) := by
  have hok : cmd_ROUNDED_G0 emptyStateW zeroArgsW = Except.ok (emitRaw emptyStateW) := by
    simp only [cmd_ROUNDED_G0]
    rw [if_pos ⟨by norm_num [zeroArgsW], by norm_num [emptyStateW]⟩]
  exact ⟨Or.inl rfl,
    cmd_buffer_length_invariant emptyStateW zeroArgsW (emitRaw emptyStateW) (Or.inl rfl) hok⟩

end RoundedPathSpec
